import Mathlib

/-!
# Integrity: dispatch, retrieval and aggregation of diagnostic test runs

A verification development over `cmd/integrity/integrity.go`.

* Data model: `Task`, `TestCase`, `Result` (lines 24-62).
* `dispatch`: the nested loop of `taskJob` that sends the outer product of
  targets and tests to the runner queue (lines 128-139).
* `aggregator`: the goroutine of `taskJob` that collects results from the
  callback channel (lines 106-126).
* `retrieveOne`, `Retrieve`: the body and the loop of a retrieval worker
  (lines 143-177).
* `System`, `step`, `run`: the goroutines of the program put together, one
  labelled transition per channel rendezvous.

Conventions.  A `chan Result` is identified by a natural number, the order in
which `make(chan Result)` produced it.  Go's `int` is taken to be wide enough
for `len(p.Targets) * len(p.Tests)` and for the counter `j` (64-bit `int`, a
task of fewer than `2^63` pairs), so both are natural numbers.  `time.Time` is
a natural number read from a clock.
-/

set_option linter.dupNamespace false

namespace Integrity

/-! ## Data model -/

/-- Identity of a `chan Result`. -/
abbrev Chan := Nat

/-- One entry of `Task.Tests`: the anonymous struct with `Name` and `Path`. -/
structure TestSpec where
  Name : String
  Path : String
deriving DecidableEq, Repr

/-- Type `Task`: the parameters of a test run. -/
structure Task where
  TaskID : Int
  Targets : List String
  Tests : List TestSpec
deriving DecidableEq, Repr

/-- Type `TestCase`: the pipeline data structure sent on the runner queue. -/
structure TestCase where
  TaskID : Int
  Name : String
  Path : String
  Target : String
  Callback : Chan
deriving DecidableEq, Repr

/-- Type `Result`: the result of a single test run for a task. -/
structure Result where
  TaskID : Int
  Name : String
  Target : String
  RunTime : Nat
  Result : Bool
  Note : String
deriving DecidableEq, Repr

/-! ## The dispatch loop of `taskJob` -/

/-- The value `expected := len(p.Targets) * len(p.Tests)` of line 105. -/
def expected (p : Task) : Nat :=
  p.Targets.length * p.Tests.length

/-- The sequence of sends `runner <- TestCase{...}` performed by the nested
loop of lines 129-139, after `p.TaskID = id` (line 101) and
`callback := make(chan Result)` (line 103). -/
def dispatch (id : Int) (callback : Chan) (p : Task) : List TestCase :=
  p.Targets.flatMap fun tgt =>
    p.Tests.map fun t =>
      { Path := t.Path, Name := t.Name, Target := tgt, TaskID := id, Callback := callback }

/-! ## The aggregator goroutine of `taskJob` -/

/-- How the goroutine of lines 106-126 ends up. -/
inductive AggOutcome where
  /-- Parked on `<-callback` (line 111): nothing more arrives and the channel
  is open.  Nothing has been written out. -/
  | blocked (results : List Result)
  /-- Lines 118-123 ran: the results were written out, the channel was closed
  and the goroutine returned. -/
  | reported (results : List Result)
  /-- Lines 118-121 wrote the results out, then `close(callback)` on line 122
  hit a channel that was already closed: Go panics with
  "close of closed channel". -/
  | panicked (results : List Result)
deriving DecidableEq, Repr

/-- The loop of lines 109-125.  `arrivals` are the values sent on `callback` by
others, in the order the receive of line 111 gets them; `closed` tells whether
someone else closes the channel once they are through, so that the next
receive yields `more = false`.  `j` and `results` are the loop variables. -/
def aggregator (expected : Nat) (closed : Bool) :
    Nat → List Result → List Result → AggOutcome
  | _, results, [] =>
      -- `j++`, then the receive: either `more = false` or no return at all
      if closed then .panicked results else .blocked results
  | j, results, i :: rest =>
      -- `j++`, `more = true`, `results = append(results, i)`
      if j + 1 ≥ expected then .reported (results ++ [i])
      else aggregator expected closed (j + 1) (results ++ [i]) rest

/-- The slice `results` when the goroutine stops or parks. -/
def AggOutcome.results : AggOutcome → List Result
  | .blocked rs => rs
  | .reported rs => rs
  | .panicked rs => rs

/-- The report written out by lines 118-121, when they run. -/
def AggOutcome.report : AggOutcome → Option (List Result)
  | .blocked _ => none
  | .reported rs => some rs
  | .panicked rs => some rs

/-! ## The retrieval worker -/

/-- The collaborators a worker calls: `fmt.Sprintf` with one argument,
`http.DefaultClient.Get`, `ioutil.ReadAll` on the response body and
`json.Unmarshal` into `struct { Result bool; Note string }`.  Each of the
last three either yields a value or the error the worker receives as `err`.
A response is named by a string. -/
structure Env where
  sprintf : String → String → String
  get : String → Except String String
  readAll : String → Except String String
  unmarshal : String → Except String (Bool × String)

/-- The probe of lines 148-165: request, read of the body, decoding.
`Except.error err` stands for `panic(err)`. -/
def probe (env : Env) (path target : String) : Except String (Bool × String) :=
  match env.get (env.sprintf path target) with
  | .error err => .error err
  | .ok resp =>
    match env.readAll resp with
    | .error err => .error err
    | .ok body =>
      match env.unmarshal body with
      | .error err => .error err
      | .ok r => .ok r

/-- The body of the loop of `Retrieve` up to the send, lines 146-173, for the
item `i`, with `now` the value of `time.Now()`. -/
def retrieveOne (env : Env) (now : Nat) (i : TestCase) : Except String Result :=
  match probe env i.Path i.Target with
  | .error err => .error err
  | .ok r =>
    .ok { TaskID := i.TaskID, Name := i.Name, Target := i.Target,
          Result := r.1, Note := r.2, RunTime := now }

/-- What one worker goroutine has done: the sends `i.Callback <- tr` it
completed, in order, and the error it panicked with, if it did. -/
structure WorkerRun where
  published : List (Chan × Result)
  panic : Option String
deriving DecidableEq, Repr

/-- The goroutine started by `Retrieve` (lines 144-176) run over the items it
receives from `in`, in order, every send on a callback channel finding its
receiver.  `clock k` is `time.Now()` at the `k`-th item; `k` and `published`
are the running position and the sends done so far. -/
def Retrieve (env : Env) (clock : Nat → Nat) :
    List TestCase → Nat → List (Chan × Result) → WorkerRun
  | [], _, published => { published := published, panic := none }
  | i :: rest, k, published =>
      match retrieveOne env (clock k) i with
      | .error err => { published := published, panic := some err }
      | .ok tr => Retrieve env clock rest (k + 1) (published ++ [(i.Callback, tr)])

/-- A result with its timestamp set aside. -/
def untimed (r : Result) : Result :=
  { r with RunTime := 0 }

/-- The result a successful probe of item `i` yields, timestamp aside;
`none` when the probe fails. -/
def outcome (env : Env) (i : TestCase) : Option Result :=
  match retrieveOne env 0 i with
  | .ok tr => some tr
  | .error _ => none

/-! ## The program as a transition system -/

/-- A worker goroutine between two channel operations. -/
inductive Worker where
  /-- Parked on `range in` (line 145). -/
  | idle
  /-- Holds the item it received; lines 146-173 are still to run. -/
  | probing (i : TestCase)
  /-- Parked on the send `i.Callback <- tr` of line 174. -/
  | sending (tr : Result) (callback : Chan)
deriving DecidableEq, Repr

/-- One run of the closure returned by `taskJob`: the dispatch loop together
with the aggregator goroutine it started. -/
structure Job where
  /-- The argument `id`. -/
  id : Int
  /-- The task `p` read from the file. -/
  task : Task
  /-- Variable `callback`. -/
  callback : Chan
  /-- The items the loop of lines 129-139 has still to send. -/
  queue : List TestCase
  /-- Variable `j` of the aggregator. -/
  j : Nat
  /-- Variable `results` of the aggregator. -/
  results : List Result
  /-- The aggregator has written its report, closed `callback` and returned. -/
  finished : Bool
deriving DecidableEq, Repr

/-- The state of the process: every `taskJob` run so far (the `k`-th owns the
`k`-th channel made), the worker goroutines, and whether a panic has brought
the process down. -/
structure System where
  jobs : List Job
  workers : List Worker
  crashed : Bool
deriving DecidableEq, Repr

/-- What can happen next. -/
inductive Action where
  /-- The scheduler runs the closure of `taskJob(id, file, runner)` and the
  file holds the task `p`. -/
  | fire (id : Int) (p : Task)
  /-- The send on `runner` of job `k` meets the receive of worker `w`. -/
  | take (k w : Nat)
  /-- Worker `w` runs lines 146-173, `time.Now()` giving `now`. -/
  | probe (w : Nat) (now : Nat)
  /-- The send of worker `w` on its callback channel goes through. -/
  | deliver (w : Nat)
deriving DecidableEq, Repr

/-- The loop of lines 70-72 of `main`, run `n` times: `n` workers, all parked
on the empty queue, and no job yet. -/
def start (n : Nat) : System :=
  { jobs := [], workers := List.replicate n Worker.idle, crashed := false }

/-- The state after `main` has started its five workers. -/
def main : System := start 5

/-- Lines 97-126 of `taskJob`: the channel is made, `expected` is computed and
the aggregator goroutine starts with `j = 0` and no results; the dispatch loop
has everything still to send. -/
def fire (s : System) (id : Int) (p : Task) : System :=
  { s with jobs := s.jobs ++ [{ id := id, task := p, callback := s.jobs.length,
                                queue := dispatch id s.jobs.length p,
                                j := 0, results := [], finished := false }] }

/-- One iteration of the aggregator loop (lines 110-124) of job `b` on
receiving `tr` with `more = true`. -/
def receive (b : Job) (tr : Result) : Job :=
  { b with j := b.j + 1, results := b.results ++ [tr],
           finished := decide (b.j + 1 ≥ expected b.task) }

/-- One transition; `none` when the action cannot happen in state `s`.  No
goroutine runs on after a panic. -/
def step (env : Env) (s : System) : Action → Option System
  | .fire id p => if s.crashed then none else some (fire s id p)
  | .take k w =>
      if s.crashed then none else
      match s.jobs[k]?, s.workers[w]? with
      | some b, some Worker.idle =>
          match b.queue with
          | [] => none
          | i :: rest =>
              some { s with jobs := s.jobs.set k { b with queue := rest },
                            workers := s.workers.set w (Worker.probing i) }
      | _, _ => none
  | .probe w now =>
      if s.crashed then none else
      match s.workers[w]? with
      | some (Worker.probing i) =>
          match retrieveOne env now i with
          | .error _ => some { s with crashed := true }
          | .ok tr => some { s with workers := s.workers.set w (Worker.sending tr i.Callback) }
      | _ => none
  | .deliver w =>
      if s.crashed then none else
      match s.workers[w]? with
      | some (Worker.sending tr c) =>
          match s.jobs[c]? with
          | none => none
          | some b =>
              if b.finished then
                -- send on a closed channel
                some { s with crashed := true }
              else
                some { s with jobs := s.jobs.set c (receive b tr),
                              workers := s.workers.set w Worker.idle }
      | _ => none

/-- Runs a schedule, one action after another. -/
def run (env : Env) : System → List Action → Option System
  | s, [] => some s
  | s, a :: rest =>
      match step env s a with
      | none => none
      | some s' => run env s' rest

/-- Whether an action is a firing of the scheduler. -/
def isFire : Action → Bool
  | Action.fire _ _ => true
  | _ => false

/-- No worker or dispatch loop can move: every action other than a new firing
of the scheduler is refused. -/
def Quiescent (env : Env) (s : System) : Prop :=
  ∀ a : Action, isFire a = false → step env s a = none

/-- The result worker `w` is parked sending on channel `c`, if any. -/
def resultFor (c : Chan) (w : Worker) : Option Result :=
  match w with
  | Worker.sending tr c' => if c' = c then some tr else none
  | _ => none

/-- The item bound for channel `c` that worker `w` holds and has not probed,
if any. -/
def itemFor (c : Chan) (w : Worker) : Option TestCase :=
  match w with
  | Worker.probing i => if i.Callback = c then some i else none
  | _ => none

/-- The results parked in sends on channel `c`. -/
def sendingTo (c : Chan) (ws : List Worker) : List Result :=
  ws.filterMap (resultFor c)

/-- The items bound for channel `c` that workers hold and have not probed. -/
def probingFor (c : Chan) (ws : List Worker) : List TestCase :=
  ws.filterMap (itemFor c)

/-- The steps worker `w` has ahead before it is idle again. -/
def stepsLeft (w : Worker) : Nat :=
  match w with
  | Worker.idle => 0
  | Worker.probing _ => 2
  | Worker.sending _ _ => 1

/-- How much work is left: three steps for an item still to be sent, two for
an item held by a worker, one for a result parked in a send; and one more
while the process is up. -/
def workLeft (s : System) : Nat :=
  if s.crashed then 0
  else 1 + ((s.jobs.map fun b => 3 * b.queue.length).sum + (s.workers.map stepsLeft).sum)

/-- The identities and tasks of the jobs, in order of firing. -/
def firings (s : System) : List (Int × Task) :=
  s.jobs.map fun b => (b.id, b.task)

/-- What holds of job `b`, the `k`-th fired, among the workers `ws`: it owns
channel `k`; `j` counts its results; it has finished exactly when a result
came in that reached the expected count; and the items its loop has sent so
far are accounted for one to one, timestamps aside, by the results it has
received, the results parked in sends to it and the items workers still hold
for it. -/
def JobInv (env : Env) (ws : List Worker) (k : Nat) (b : Job) : Prop :=
  b.callback = k ∧ b.j = b.results.length ∧
  (b.finished = true ↔ 1 ≤ b.results.length ∧ expected b.task ≤ b.results.length) ∧
  ∃ m : Nat, m ≤ (dispatch b.id k b.task).length ∧
    b.queue = (dispatch b.id k b.task).drop m ∧
    Multiset.map (outcome env) (((dispatch b.id k b.task).take m : List TestCase) : Multiset TestCase) =
      Multiset.map (fun r => some (untimed r))
          ((b.results : Multiset Result) + (sendingTo k ws : Multiset Result)) +
        Multiset.map (outcome env) (probingFor k ws : Multiset TestCase)

/-- The invariant of the transition system: an item a worker holds is one of
those the job owning its channel dispatches, a result parked in a send is
bound for the channel of a job that exists, and every job satisfies
`JobInv`. -/
def Inv (env : Env) (s : System) : Prop :=
  (∀ (w : Nat) (i : TestCase), s.workers[w]? = some (Worker.probing i) →
    ∃ b : Job, s.jobs[i.Callback]? = some b ∧ i ∈ dispatch b.id i.Callback b.task) ∧
  (∀ (w : Nat) (tr : Result) (c : Chan), s.workers[w]? = some (Worker.sending tr c) →
    c < s.jobs.length) ∧
  (∀ (k : Nat) (b : Job), s.jobs[k]? = some b → JobInv env s.workers k b)

/-- Every probe the jobs of `s` ask for succeeds. -/
def AllProbesSucceed (env : Env) (s : System) : Prop :=
  ∀ (k : Nat) (b : Job), s.jobs[k]? = some b →
    ∀ i ∈ dispatch b.id k b.task, ∃ r, probe env i.Path i.Target = .ok r

/-- No firing of the scheduler among the actions. -/
def NoFire (sched : List Action) : Prop :=
  ∀ a ∈ sched, isFire a = false

/-- The ids and tasks a schedule fires, in order. -/
def fired (sched : List Action) : List (Int × Task) :=
  sched.filterMap fun a =>
    match a with
    | Action.fire id p => some (id, p)
    | _ => none

/-- The entries a report of task `p` run under `id` is made of, timestamps
aside, in dispatch order: for each target and each test the result carrying
the id, the name of the test, the target and what the probe of the pair
decodes to; `none` for a pair whose probe fails. -/
def pairResults (env : Env) (id : Int) (p : Task) : List (Option Result) :=
  p.Targets.flatMap fun tgt =>
    p.Tests.map fun t =>
      match probe env t.Path tgt with
      | .ok r => some { TaskID := id, Name := t.Name, Target := tgt, RunTime := 0,
                        Result := r.1, Note := r.2 }
      | .error _ => none

/-- The state a schedule leads to from `s`; `s` itself when the schedule
cannot be run. -/
def after (env : Env) (s : System) (sched : List Action) : System :=
  (run env s sched).getD s

/-! ## Concrete inputs -/

/-- Replaces the first verb `%s` of a format by the argument. -/
def substitute : List Char → List Char → List Char
  | [], _ => []
  | [c], _ => [c]
  | c :: d :: rest, t =>
      if c = '%' ∧ d = 's' then t ++ rest else c :: substitute (d :: rest) t

/-- A service on which `http://x/a` answers `(true, "ok")`, `http://x/b`
answers `(false, "timeout")` in its body, every other request under
`http://x/` answers `(true, "ok")`, and nothing else is reachable. -/
def service : Env where
  sprintf path target := String.mk (substitute path.data target.data)
  get url := if "http://x/".data.isPrefixOf url.data then .ok url else .error "no such host"
  readAll resp := .ok resp
  unmarshal body := if body = "http://x/b" then .ok (false, "timeout") else .ok (true, "ok")

/-- The same service with the request for `b` failing at transport level. -/
def flaky : Env :=
  { service with
    get := fun url => if url = "http://x/b" then .error "timeout" else service.get url }

/-- The test `ping`. -/
def ping : TestSpec := { Name := "ping", Path := "http://x/%s" }

/-- The task of the end-to-end scenario: targets `a` and `b`, test `ping`. -/
def taskAB : Task := { TaskID := 0, Targets := ["a", "b"], Tests := [ping] }

/-- A task without targets. -/
def taskNoTargets : Task := { TaskID := 0, Targets := [], Tests := [ping] }

/-- A task without tests. -/
def taskNoTests : Task := { TaskID := 0, Targets := ["a", "b"], Tests := [] }

/-- A task of ten work items, the first one for target `b`. -/
def taskTen : Task :=
  { TaskID := 0, Targets := ["b", "a", "c", "d", "e", "f", "g", "h", "i", "k"], Tests := [ping] }

/-- A schedule on which two jobs take turns on the runner queue. -/
def contended : List Action :=
  [Action.fire 1 taskAB, Action.fire 2 taskAB, Action.take 1 0, Action.take 0 1,
   Action.probe 1 7, Action.take 1 2, Action.probe 0 8, Action.deliver 1,
   Action.deliver 0, Action.probe 2 9, Action.deliver 2]

/-- A schedule that serves the two items of `taskAB`, `b` first. -/
def bThenA : List Action :=
  [Action.take 0 0, Action.take 0 3, Action.probe 3 5, Action.deliver 3,
   Action.probe 0 6, Action.deliver 0]

/-- A schedule for one worker: it takes the first item and probes it. -/
def firstOnly : List Action :=
  [Action.take 0 0, Action.probe 0 5]

/-- A schedule for two workers or more: the second item is served while the
first is still being probed. -/
def secondOvertakes : List Action :=
  [Action.take 0 0, Action.take 0 1, Action.probe 1 5, Action.deliver 1, Action.probe 0 6]

/-- A schedule on `taskAB` for two workers or more: the first item is served,
then the second is probed. -/
def firstThenSecond : List Action :=
  [Action.take 0 0, Action.take 0 1, Action.probe 0 5, Action.deliver 0, Action.probe 1 6]

/-- A schedule on which a second job is fired and has its first item served. -/
def besideEmpty : List Action :=
  [Action.fire 2 taskAB, Action.take 1 0, Action.probe 0 3, Action.deliver 0]

/-- The schedule of a single worker serving `n` items one after the other. -/
def serial (n : Nat) : List Action :=
  (List.range n).flatMap fun t => [Action.take 0 0, Action.probe 0 t, Action.deliver 0]

/-- A schedule of five workers serving five items at a time, `rounds` times
over: all five take, all five probe, all five deliver, last worker first. -/
def batched (rounds : Nat) : List Action :=
  (List.range rounds).flatMap fun t =>
    [Action.take 0 0, Action.take 0 1, Action.take 0 2, Action.take 0 3, Action.take 0 4,
     Action.probe 4 t, Action.probe 3 t, Action.probe 2 t, Action.probe 1 t, Action.probe 0 t,
     Action.deliver 4, Action.deliver 3, Action.deliver 2, Action.deliver 1, Action.deliver 0]

/-- The schedule `contended` from the two firings on, carried on until both
jobs have had both their items served. -/
def bothServed : List Action :=
  contended ++ [Action.take 0 3, Action.probe 3 10, Action.deliver 3]

/-! ## The aggregator on its own -/

/-- The loop from any `j` and `results`: it reports once `max (expected - j) 1`
more results are in, and otherwise ends on what the channel does next. -/
theorem aggregator_eq (expected : Nat) (closed : Bool) (arrivals : List Result) :
    ∀ (j : Nat) (results : List Result),
      aggregator expected closed j results arrivals =
        if max (expected - j) 1 ≤ arrivals.length then
          AggOutcome.reported (results ++ arrivals.take (max (expected - j) 1))
        else if closed then AggOutcome.panicked (results ++ arrivals)
        else AggOutcome.blocked (results ++ arrivals) := by
  induction arrivals with
  | nil =>
    intro j results
    have h : ¬ max (expected - j) 1 ≤ 0 := by omega
    simp [aggregator, h]
  | cons i rest ih =>
    intro j results
    by_cases hj : j + 1 ≥ expected
    · have h1 : max (expected - j) 1 = 1 := by omega
      simp [aggregator, hj, h1]
    · have h1 : max (expected - j) 1 = max (expected - (j + 1)) 1 + 1 := by omega
      rw [aggregator, if_neg hj, ih, h1]
      simp [List.take_succ_cons]

/-- The loop as the goroutine runs it, from `j = 0` and no results. -/
theorem aggregator_start (expected : Nat) (closed : Bool) (arrivals : List Result) :
    aggregator expected closed 0 [] arrivals =
      if max expected 1 ≤ arrivals.length then
        AggOutcome.reported (arrivals.take (max expected 1))
      else if closed then AggOutcome.panicked arrivals
      else AggOutcome.blocked arrivals := by
  simpa using aggregator_eq expected closed arrivals 0 []

/-- With at least one result expected, the sink open and exactly the expected
number of results delivered, the aggregator reports them all and returns. -/
theorem aggregator_full (n : Nat) (arrivals : List Result) (hn : 1 ≤ n)
    (hlen : arrivals.length = n) :
    aggregator n false 0 [] arrivals = AggOutcome.reported arrivals := by
  have h1 : max n 1 = n := by omega
  rw [aggregator_start, h1, if_pos (by omega), ← hlen, List.take_length]

/-- With fewer results than expected delivered and the sink open, the
aggregator stays parked on the receive. -/
theorem aggregator_waits (n : Nat) (arrivals : List Result)
    (hlen : arrivals.length < max n 1) :
    aggregator n false 0 [] arrivals = AggOutcome.blocked arrivals := by
  rw [aggregator_start, if_neg (by omega)]
  simp

/-- With the sink closed by someone else after fewer results than expected,
the aggregator writes those results out and then panics on its own close. -/
theorem aggregator_early_close (n : Nat) (arrivals : List Result)
    (hlen : arrivals.length < n) :
    aggregator n true 0 [] arrivals = AggOutcome.panicked arrivals := by
  rw [aggregator_start, if_neg (by omega)]
  simp

/-- Claim C1, on the input where the code departs from it: a task without
targets has an expected count of zero, nothing is dispatched, and with zero
results delivered and the sink open the aggregator stays parked on its receive
instead of reporting zero results; the same holds for a task without tests. -/
theorem aggregator_zero_expected_blocks :
    expected taskNoTargets = 0 ∧ dispatch 1 0 taskNoTargets = [] ∧
    aggregator (expected taskNoTargets) false 0 [] [] = AggOutcome.blocked [] ∧
    (aggregator (expected taskNoTargets) false 0 [] []).report = none ∧
    aggregator (expected taskNoTests) false 0 [] [] = AggOutcome.blocked [] := by
  decide

/-- Claim C3 as stated fails: with one result expected and the sink closed
before any arrives (`k = 0 < n = 1`), and with two expected and the sink
closed after one (`k = 1 < n = 2`), the aggregator writes out its `k` results
and then panics on `close(callback)`. -/
theorem aggregator_early_close_panics :
    aggregator 1 true 0 [] [] = AggOutcome.panicked [] ∧
    aggregator 2 true 0 [] [⟨1, "ping", "a", 0, true, "ok"⟩] =
      AggOutcome.panicked [⟨1, "ping", "a", 0, true, "ok"⟩] := by
  decide

/-- Claim C9: whatever the expected count and whatever arrives on the sink,
the slice the aggregator has built is the first `max expected 1` arrivals in
arrival order (all of them when fewer arrive); its report, written out exactly
when the sink is closed or that many results are in, is that same prefix. -/
theorem aggregator_report_arrival_order (expected : Nat) (closed : Bool)
    (arrivals : List Result) :
    (aggregator expected closed 0 [] arrivals).results = arrivals.take (max expected 1) ∧
    (aggregator expected closed 0 [] arrivals).report =
      (if closed = true ∨ max expected 1 ≤ arrivals.length then
        some (arrivals.take (max expected 1)) else none) ∧
    arrivals.take (max expected 1) <+: arrivals := by
  refine ⟨?_, ?_, List.take_prefix _ _⟩
  · rw [aggregator_start]
    by_cases h : max expected 1 ≤ arrivals.length
    · simp [h, AggOutcome.results]
    · have h2 : arrivals.take (max expected 1) = arrivals :=
        List.take_of_length_le (by omega)
      cases closed <;> simp [h, h2, AggOutcome.results]
  · rw [aggregator_start]
    by_cases h : max expected 1 ≤ arrivals.length
    · simp [h, AggOutcome.report]
    · have h2 : arrivals.take (max expected 1) = arrivals :=
        List.take_of_length_le (by omega)
      cases closed <;> simp [h, h2, AggOutcome.report]

/-! ## The dispatch loop on its own -/

theorem dispatch_length (id : Int) (callback : Chan) (p : Task) :
    (dispatch id callback p).length = expected p := by
  obtain ⟨tid, targets, tests⟩ := p
  simp only [dispatch, expected]
  induction targets with
  | nil => simp
  | cons tgt rest ih =>
    simp only [List.flatMap_cons, List.length_append, List.length_map, List.length_cons, ih]
    ring

theorem dispatch_mem (id : Int) (callback : Chan) (p : Task) (x : TestCase)
    (hx : x ∈ dispatch id callback p) : x.TaskID = id ∧ x.Callback = callback := by
  simp only [dispatch, List.mem_flatMap, List.mem_map] at hx
  obtain ⟨tgt, _, t, _, rfl⟩ := hx
  exact ⟨rfl, rfl⟩

theorem dispatch_getElem? (id : Int) (callback : Chan) (p : Task) (i j : Nat)
    (tgt : String) (t : TestSpec) (hi : p.Targets[i]? = some tgt) (hj : p.Tests[j]? = some t) :
    (dispatch id callback p)[i * p.Tests.length + j]? =
      some { Target := tgt, Name := t.Name, Path := t.Path, TaskID := id, Callback := callback } := by
  obtain ⟨tid, targets, tests⟩ := p
  simp only [dispatch] at *
  have hjlt : j < tests.length := (List.getElem?_eq_some_iff.mp hj).1
  induction targets generalizing i with
  | nil => simp at hi
  | cons a rest ih =>
    cases i with
    | zero =>
      simp only [List.getElem?_cons_zero, Option.some.injEq] at hi
      subst hi
      simp only [List.flatMap_cons, zero_mul, zero_add]
      rw [List.getElem?_append_left (by simpa using hjlt)]
      simp [hj]
    | succ i =>
      simp only [List.getElem?_cons_succ] at hi
      simp only [List.flatMap_cons]
      rw [List.getElem?_append_right (by simp; nlinarith)]
      have h : (i + 1) * tests.length + j - (List.map (fun t : TestSpec =>
          ({ Path := t.Path, Name := t.Name, Target := a, TaskID := id, Callback := callback } : TestCase))
          tests).length = i * tests.length + j := by
        simp only [List.length_map]
        rw [Nat.succ_mul]; omega
      rw [h]
      exact ih i hi

/-- Claim C4: the items `taskJob` sends are the outer product of targets and
tests, targets outermost: there are `len(Targets) * len(Tests)` of them, the
expected count; the item at position `i * len(Tests) + j` has the target
`Targets[i]` and the name and path of `Tests[j]`; every item carries the id
and the one channel made for this run, which a firing makes anew. -/
theorem dispatch_outer_product (id : Int) (callback : Chan) (p : Task) :
    (dispatch id callback p).length = p.Targets.length * p.Tests.length ∧
    (dispatch id callback p).length = expected p ∧
    (∀ (i j : Nat) (tgt : String) (t : TestSpec),
      p.Targets[i]? = some tgt → p.Tests[j]? = some t →
      (dispatch id callback p)[i * p.Tests.length + j]? =
        some { Target := tgt, Name := t.Name, Path := t.Path,
               TaskID := id, Callback := callback }) ∧
    (∀ x ∈ dispatch id callback p, x.TaskID = id ∧ x.Callback = callback) ∧
    (∀ s : System, (fire s id p).jobs =
      s.jobs ++ [{ id := id, task := p, callback := s.jobs.length,
                   queue := dispatch id s.jobs.length p, j := 0, results := [],
                   finished := false }]) :=
  ⟨dispatch_length id callback p, dispatch_length id callback p,
   dispatch_getElem? id callback p, dispatch_mem id callback p, fun _ => rfl⟩

/-- Claim C4 on the task with targets `a`, `b` and tests `ping`: the item at
position `1 * 1 + 0` is the one for target `b`. -/
theorem dispatch_outer_product_witness :
    taskAB.Targets[1]? = some "b" ∧ taskAB.Tests[0]? = some ping ∧
    (dispatch 1 0 taskAB)[1 * taskAB.Tests.length + 0]? =
      some { Target := "b", Name := "ping", Path := "http://x/%s", TaskID := 1, Callback := 0 } :=
  ⟨rfl, rfl, (dispatch_outer_product 1 0 taskAB).2.2.1 1 0 "b" ping rfl rfl⟩

/-! ## The retrieval worker on its own -/

theorem retrieveOne_ok (env : Env) (now : Nat) (i : TestCase) (r : Bool × String)
    (h : probe env i.Path i.Target = .ok r) :
    retrieveOne env now i =
      .ok { TaskID := i.TaskID, Name := i.Name, Target := i.Target,
            Result := r.1, Note := r.2, RunTime := now } := by
  simp [retrieveOne, h]

theorem retrieveOne_error (env : Env) (now : Nat) (i : TestCase) (err : String)
    (h : probe env i.Path i.Target = .error err) :
    retrieveOne env now i = .error err := by
  simp [retrieveOne, h]

/-- Over items whose probes all succeed the worker never panics and sends, in
order, one result per item on that item's channel. -/
theorem Retrieve_ok (env : Env) (clock : Nat → Nat) (items : List TestCase) :
    ∀ (k : Nat) (published : List (Chan × Result)),
      (∀ i ∈ items, ∃ r, probe env i.Path i.Target = .ok r) →
      (Retrieve env clock items k published).panic = none ∧
      ∃ sent : List (Chan × Result),
        (Retrieve env clock items k published).published = published ++ sent ∧
        sent.length = items.length ∧
        ∀ (n : Nat) (i : TestCase), items[n]? = some i →
          ∃ r, probe env i.Path i.Target = .ok r ∧
            sent[n]? = some (i.Callback,
              { TaskID := i.TaskID, Name := i.Name, Target := i.Target,
                Result := r.1, Note := r.2, RunTime := clock (k + n) }) := by
  induction items with
  | nil =>
    intro k published _
    exact ⟨rfl, [], by simp [Retrieve], rfl, by simp⟩
  | cons i rest ih =>
    intro k published hok
    obtain ⟨r, hr⟩ := hok i (List.mem_cons_self _ _)
    obtain ⟨hp, sent, hs, hl, hn⟩ :=
      ih (k + 1) (published ++ [(i.Callback,
        { TaskID := i.TaskID, Name := i.Name, Target := i.Target,
          Result := r.1, Note := r.2, RunTime := clock k })])
        (fun x hx => hok x (List.mem_cons_of_mem _ hx))
    simp only [Retrieve, retrieveOne_ok env (clock k) i r hr]
    refine ⟨hp, _ :: sent, by simpa using hs, by simp [hl], ?_⟩
    intro n x hx
    cases n with
    | zero =>
      simp only [List.getElem?_cons_zero, Option.some.injEq] at hx
      subst hx
      exact ⟨r, hr, by simp⟩
    | succ n =>
      simp only [List.getElem?_cons_succ] at hx
      obtain ⟨r', hr', hs'⟩ := hn n x hx
      refine ⟨r', hr', ?_⟩
      simp only [List.getElem?_cons_succ, hs']
      have : k + 1 + n = k + (n + 1) := by omega
      rw [this]

/-- A failing probe stops the worker: what it had sent for the items before
stays, the failing item and the items after it get nothing. -/
theorem Retrieve_error (env : Env) (clock : Nat → Nat) (i : TestCase) (post : List TestCase)
    (err : String) (herr : probe env i.Path i.Target = .error err) (pre : List TestCase) :
    ∀ (k : Nat) (published : List (Chan × Result)),
      (∀ x ∈ pre, ∃ r, probe env x.Path x.Target = .ok r) →
      (Retrieve env clock (pre ++ i :: post) k published).panic = some err ∧
      (Retrieve env clock (pre ++ i :: post) k published).published =
        (Retrieve env clock pre k published).published := by
  induction pre with
  | nil =>
    intro k published _
    simp [Retrieve, retrieveOne_error env (clock k) i err herr]
  | cons x rest ih =>
    intro k published hok
    obtain ⟨r, hr⟩ := hok x (List.mem_cons_self _ _)
    simp only [List.cons_append, Retrieve, retrieveOne_ok env (clock k) x r hr]
    exact ih _ _ (fun y hy => hok y (List.mem_cons_of_mem _ hy))

/-- Claim C5 as stated fails: the worker consuming the item for target `b` on
the service whose request for `b` fails publishes no result for it. -/
theorem Retrieve_drops_failed_item :
    (Retrieve flaky id [⟨1, "ping", "http://x/%s", "b", 0⟩] 0 []).published = [] ∧
    ¬ (Retrieve flaky id [⟨1, "ping", "http://x/%s", "b", 0⟩] 0 []).published.length = 1 := by
  decide

/-- A worker on its own, every send finding its receiver, over items whose
probes all succeed: it publishes exactly one result per item consumed, in
order, on that item's callback channel, with the item's id, name and target
and the decoded outcome and note, and it does not panic. -/
theorem Retrieve_alone_publishes_each (env : Env) (clock : Nat → Nat) (items : List TestCase)
    (hok : ∀ i ∈ items, ∃ r, probe env i.Path i.Target = .ok r) :
    (Retrieve env clock items 0 []).panic = none ∧
    (Retrieve env clock items 0 []).published.length = items.length ∧
    ∀ (n : Nat) (i : TestCase), items[n]? = some i →
      ∃ r, probe env i.Path i.Target = .ok r ∧
        (Retrieve env clock items 0 []).published[n]? = some (i.Callback,
          { TaskID := i.TaskID, Name := i.Name, Target := i.Target,
            Result := r.1, Note := r.2, RunTime := clock n }) := by
  obtain ⟨hp, sent, hs, hl, hn⟩ := Retrieve_ok env clock items 0 [] hok
  simp only [List.nil_append] at hs
  rw [hs]
  refine ⟨hp, hl, ?_⟩
  intro n i hi
  obtain ⟨r, hr, h⟩ := hn n i hi
  exact ⟨r, hr, by simpa using h⟩

/-- Claim C6 as stated fails: on the service whose request for `b` fails, the
worker given the item for `b` and then the item for `a` publishes nothing for
either and stops with the error. -/
theorem Retrieve_stops_on_failed_probe :
    Retrieve flaky id [⟨1, "ping", "http://x/%s", "b", 0⟩, ⟨1, "ping", "http://x/%s", "a", 0⟩] 0 [] =
      { published := [], panic := some "timeout" } := by
  decide

/-- Claim C6, amended: when the probe of an item fails, the worker that took
it panics with that error; it publishes no result for the item and processes
no item after it: all it has published is what it published for the items
before. -/
theorem Retrieve_panics_on_failed_probe (env : Env) (clock : Nat → Nat)
    (pre : List TestCase) (i : TestCase) (post : List TestCase) (err : String)
    (hpre : ∀ x ∈ pre, ∃ r, probe env x.Path x.Target = .ok r)
    (herr : probe env i.Path i.Target = .error err) :
    (Retrieve env clock (pre ++ i :: post) 0 []).panic = some err ∧
    (Retrieve env clock (pre ++ i :: post) 0 []).published =
      (Retrieve env clock pre 0 []).published ∧
    (Retrieve env clock (pre ++ i :: post) 0 []).published.length = pre.length := by
  obtain ⟨h1, h2⟩ := Retrieve_error env clock i post err herr pre 0 [] hpre
  obtain ⟨_, sent, hs, hl, _⟩ := Retrieve_ok env clock pre 0 [] hpre
  refine ⟨h1, h2, ?_⟩
  rw [h2, hs]
  simpa using hl

/-- Claim C6, amended, on the scenario task with the request for `b` failing:
the item for `a` is served, the item for `b` stops the worker. -/
theorem Retrieve_panics_on_failed_probe_witness :
    (∀ x ∈ [(⟨1, "ping", "http://x/%s", "a", 0⟩ : TestCase)],
      ∃ r, probe flaky x.Path x.Target = .ok r) ∧
    probe flaky "http://x/%s" "b" = .error "timeout" ∧
    (Retrieve flaky id ([⟨1, "ping", "http://x/%s", "a", 0⟩] ++
      ⟨1, "ping", "http://x/%s", "b", 0⟩ :: [⟨1, "ping", "http://x/%s", "c", 0⟩]) 0 []).panic =
        some "timeout" :=
  have h : ∀ x ∈ [(⟨1, "ping", "http://x/%s", "a", 0⟩ : TestCase)],
      ∃ r, probe flaky x.Path x.Target = .ok r := by
    intro x hx
    rw [List.mem_singleton] at hx
    subst hx
    exact ⟨(true, "ok"), rfl⟩
  ⟨h, rfl, (Retrieve_panics_on_failed_probe flaky id _ ⟨1, "ping", "http://x/%s", "b", 0⟩
    [⟨1, "ping", "http://x/%s", "c", 0⟩] "timeout" h rfl).1⟩

/-! ## Replacing one entry of a list -/

theorem filterMap_set_add {α β : Type} (f : α → Option β) (l : List α) (w : Nat) (y x : α)
    (h : l[w]? = some y) :
    ((l.set w x).filterMap f : Multiset β) + ((f y).toList : Multiset β) =
      (l.filterMap f : Multiset β) + ((f x).toList : Multiset β) := by
  induction l generalizing w with
  | nil => simp at h
  | cons a t ih =>
    cases w with
    | zero =>
      simp only [List.getElem?_cons_zero, Option.some.injEq] at h
      subst h
      simp only [List.set_cons_zero, List.filterMap_cons]
      cases hfa : f a <;> cases hfx : f x <;>
        simp [← Multiset.cons_coe, ← Multiset.singleton_add] <;> abel
    | succ w =>
      simp only [List.getElem?_cons_succ] at h
      have := ih w h
      simp only [List.set_cons_succ, List.filterMap_cons]
      cases hfa : f a
      · simpa using this
      · simp only [← Multiset.cons_coe, Multiset.cons_add, this]

theorem sum_map_set_add {α : Type} (g : α → Nat) (l : List α) (w : Nat) (y x : α)
    (h : l[w]? = some y) :
    ((l.set w x).map g).sum + g y = (l.map g).sum + g x := by
  induction l generalizing w with
  | nil => simp at h
  | cons a t ih =>
    cases w with
    | zero =>
      simp only [List.getElem?_cons_zero, Option.some.injEq] at h
      subst h
      simp only [List.set_cons_zero, List.map_cons, List.sum_cons]
      omega
    | succ w =>
      simp only [List.getElem?_cons_succ] at h
      have := ih w h
      simp only [List.set_cons_succ, List.map_cons, List.sum_cons]
      omega

theorem mem_filterMap_of_getElem? {α β : Type} (f : α → Option β) (l : List α) (w : Nat)
    (y : α) (b : β) (h : l[w]? = some y) (hf : f y = some b) : b ∈ l.filterMap f := by
  rw [List.mem_filterMap]
  exact ⟨y, List.getElem?_mem h, hf⟩

theorem filterMap_eq_nil_of_forall {α β : Type} (f : α → Option β) (l : List α)
    (h : ∀ (w : Nat) (y : α), l[w]? = some y → f y = none) : l.filterMap f = [] := by
  rw [List.filterMap_eq_nil_iff]
  intro y hy
  obtain ⟨w, hw⟩ := List.getElem?_of_mem hy
  exact h w y hw

/-! ## The transitions, one by one -/

theorem step_fire_iff (env : Env) (s s' : System) (id : Int) (p : Task) :
    step env s (Action.fire id p) = some s' ↔ s.crashed = false ∧ s' = fire s id p := by
  cases hc : s.crashed <;> simp [step, hc, eq_comm]

theorem step_take_iff (env : Env) (s s' : System) (k w : Nat) :
    step env s (Action.take k w) = some s' ↔
      s.crashed = false ∧ ∃ (b : Job) (i : TestCase) (rest : List TestCase),
        s.jobs[k]? = some b ∧ s.workers[w]? = some Worker.idle ∧ b.queue = i :: rest ∧
        s' = { s with jobs := s.jobs.set k { b with queue := rest },
                      workers := s.workers.set w (Worker.probing i) } := by
  cases hc : s.crashed
  · cases hb : s.jobs[k]? with
    | none => simp [step, hc, hb]
    | some b =>
      cases hw : s.workers[w]? with
      | none => simp [step, hc, hb, hw]
      | some x =>
        cases x with
        | idle =>
          cases hq : b.queue with
          | nil => simp [step, hc, hb, hw, hq]
          | cons i rest =>
            have hs : step env s (Action.take k w) =
                some { s with jobs := s.jobs.set k { b with queue := rest },
                              workers := s.workers.set w (Worker.probing i) } := by
              simp [step, hc, hb, hw, hq]
            rw [hs]
            constructor
            · intro h
              exact ⟨rfl, b, i, rest, rfl, rfl, hq, by simpa [eq_comm, hc] using h⟩
            · rintro ⟨_, b', i', rest', h1, _, h3, h4⟩
              cases h1
              rw [hq] at h3
              cases h3
              rw [h4]
              simp [hc]
        | probing i => simp [step, hc, hb, hw]
        | sending tr c => simp [step, hc, hb, hw]
  · simp [step, hc]

theorem step_probe_iff (env : Env) (s s' : System) (w now : Nat) :
    step env s (Action.probe w now) = some s' ↔
      s.crashed = false ∧ ∃ i : TestCase, s.workers[w]? = some (Worker.probing i) ∧
        ((∃ err, retrieveOne env now i = .error err ∧ s' = { s with crashed := true }) ∨
         (∃ tr, retrieveOne env now i = .ok tr ∧
            s' = { s with workers := s.workers.set w (Worker.sending tr i.Callback) })) := by
  cases hc : s.crashed
  · cases hw : s.workers[w]? with
    | none => simp [step, hc, hw]
    | some x =>
      cases x with
      | idle => simp [step, hc, hw]
      | probing i =>
        cases hr : retrieveOne env now i <;> simp [step, hc, hw, hr, eq_comm]
      | sending tr c => simp [step, hc, hw]
  · simp [step, hc]

theorem step_deliver_iff (env : Env) (s s' : System) (w : Nat) :
    step env s (Action.deliver w) = some s' ↔
      s.crashed = false ∧ ∃ (tr : Result) (c : Chan) (b : Job),
        s.workers[w]? = some (Worker.sending tr c) ∧ s.jobs[c]? = some b ∧
        ((b.finished = true ∧ s' = { s with crashed := true }) ∨
         (b.finished = false ∧
            s' = { s with jobs := s.jobs.set c (receive b tr),
                          workers := s.workers.set w Worker.idle })) := by
  cases hc : s.crashed
  · cases hw : s.workers[w]? with
    | none => simp [step, hc, hw]
    | some x =>
      cases x with
      | idle => simp [step, hc, hw]
      | probing i => simp [step, hc, hw]
      | sending tr c =>
        cases hb : s.jobs[c]? with
        | none => simp [step, hc, hw, hb]
        | some b =>
          have hs : step env s (Action.deliver w) =
              if b.finished then some { s with crashed := true }
              else some { s with jobs := s.jobs.set c (receive b tr),
                                 workers := s.workers.set w Worker.idle } := by
            simp [step, hc, hw, hb]
          rw [hs]
          cases hf : b.finished
          · constructor
            · intro h
              exact ⟨rfl, tr, c, b, rfl, hb, Or.inr ⟨hf, by simpa [eq_comm, hc, hf] using h⟩⟩
            · rintro ⟨_, tr', c', b', h1, h2, h3⟩
              cases h1
              rw [hb] at h2
              cases h2
              rcases h3 with ⟨h, _⟩ | ⟨_, h⟩
              · rw [hf] at h
                cases h
              · rw [h]
                simp [hc, hf]
          · constructor
            · intro h
              exact ⟨rfl, tr, c, b, rfl, hb, Or.inl ⟨hf, by simpa [eq_comm, hc, hf] using h⟩⟩
            · rintro ⟨_, tr', c', b', h1, h2, h3⟩
              cases h1
              rw [hb] at h2
              cases h2
              rcases h3 with ⟨_, h⟩ | ⟨h, _⟩
              · rw [h]
                simp [hc, hf]
              · rw [hf] at h
                cases h
  · simp [step, hc]

/-! ## What workers hold, under replacement of one worker -/

theorem sendingTo_set (c : Chan) (ws : List Worker) (w : Nat) (y x : Worker)
    (h : ws[w]? = some y) :
    (sendingTo c (ws.set w x) : Multiset Result) + ((resultFor c y).toList : Multiset Result) =
      (sendingTo c ws : Multiset Result) + ((resultFor c x).toList : Multiset Result) :=
  filterMap_set_add (resultFor c) ws w y x h

theorem probingFor_set (c : Chan) (ws : List Worker) (w : Nat) (y x : Worker)
    (h : ws[w]? = some y) :
    (probingFor c (ws.set w x) : Multiset TestCase) + ((itemFor c y).toList : Multiset TestCase) =
      (probingFor c ws : Multiset TestCase) + ((itemFor c x).toList : Multiset TestCase) :=
  filterMap_set_add (itemFor c) ws w y x h

/-! ## Probes and outcomes -/

theorem outcome_of_retrieveOne (env : Env) (now : Nat) (i : TestCase) (tr : Result)
    (h : retrieveOne env now i = .ok tr) : outcome env i = some (untimed tr) := by
  unfold retrieveOne at h
  cases hp : probe env i.Path i.Target with
  | error err => simp [hp] at h
  | ok r =>
    simp only [hp, Except.ok.injEq] at h
    subst h
    simp [outcome, retrieveOne, hp, untimed]

theorem outcome_of_probe (env : Env) (i : TestCase) (r : Bool × String)
    (h : probe env i.Path i.Target = .ok r) :
    outcome env i = some { TaskID := i.TaskID, Name := i.Name, Target := i.Target,
                           Result := r.1, Note := r.2, RunTime := 0 } := by
  simp [outcome, retrieveOne, h]

theorem probe_of_outcome (env : Env) (i : TestCase) (r : Result)
    (h : outcome env i = some r) :
    ∃ d, probe env i.Path i.Target = .ok d ∧
      r = { TaskID := i.TaskID, Name := i.Name, Target := i.Target,
            Result := d.1, Note := d.2, RunTime := 0 } := by
  cases hp : probe env i.Path i.Target with
  | error err => simp [outcome, retrieveOne, hp] at h
  | ok d =>
    refine ⟨d, rfl, ?_⟩
    simpa [outcome, retrieveOne, hp, eq_comm] using h

theorem retrieveOne_of_outcome (env : Env) (now : Nat) (i : TestCase) (r : Result)
    (h : outcome env i = some r) : ∃ tr, retrieveOne env now i = .ok tr := by
  obtain ⟨d, hd, _⟩ := probe_of_outcome env i r h
  exact ⟨_, retrieveOne_ok env now i d hd⟩

/-! ## The invariant -/

theorem getElem?_set_same_task (jobs : List Job) (k : Nat) (b b' : Job)
    (hb : jobs[k]? = some b) (hid : b'.id = b.id) (htask : b'.task = b.task)
    (i : TestCase)
    (hi : ∃ b0 : Job, jobs[i.Callback]? = some b0 ∧ i ∈ dispatch b0.id i.Callback b0.task) :
    ∃ b1 : Job, (jobs.set k b')[i.Callback]? = some b1 ∧
      i ∈ dispatch b1.id i.Callback b1.task := by
  obtain ⟨b0, h0, hmem⟩ := hi
  by_cases hk : k = i.Callback
  · subst hk
    rw [hb] at h0
    cases h0
    refine ⟨b', ?_, ?_⟩
    · rw [List.getElem?_set_self (List.getElem?_eq_some_iff.mp hb).1]
    · rw [hid, htask]
      exact hmem
  · exact ⟨b0, by rw [List.getElem?_set_ne hk]; exact h0, hmem⟩

theorem inv_start (env : Env) (n : Nat) : Inv env (start n) := by
  refine ⟨?_, ?_, ?_⟩
  · intro w i hw
    have := List.getElem?_mem hw
    simp [start] at this
  · intro w tr c hw
    have := List.getElem?_mem hw
    simp [start] at this
  · intro k b hb
    simp [start] at hb

theorem inv_fire (env : Env) (s : System) (id : Int) (p : Task) (hinv : Inv env s) :
    Inv env (fire s id p) := by
  obtain ⟨hP, hS, hJ⟩ := hinv
  refine ⟨?_, ?_, ?_⟩
  · intro w i hw
    obtain ⟨b, hb, hi⟩ := hP w i hw
    refine ⟨b, ?_, hi⟩
    simp only [fire]
    rw [List.getElem?_append_left (List.getElem?_eq_some_iff.mp hb).1]
    exact hb
  · intro w tr c hw
    have := hS w tr c hw
    simp only [fire, List.length_append, List.length_singleton]
    exact Nat.lt_succ_of_lt this
  · intro k b hb
    simp only [fire] at hb ⊢
    rcases Nat.lt_or_ge k s.jobs.length with hlt | hge
    · rw [List.getElem?_append_left hlt] at hb
      exact hJ k b hb
    · rw [List.getElem?_append_right hge] at hb
      have hk : k = s.jobs.length := by
        by_contra hne
        have : k - s.jobs.length ≠ 0 := by omega
        obtain ⟨n, hn⟩ := Nat.exists_eq_succ_of_ne_zero this
        rw [hn] at hb
        simp at hb
      subst hk
      simp only [Nat.sub_self, List.getElem?_cons_zero, Option.some.injEq] at hb
      subst hb
      have hS0 : sendingTo s.jobs.length s.workers = [] := by
        apply filterMap_eq_nil_of_forall
        intro w y hw
        cases y with
        | idle => rfl
        | probing i => rfl
        | sending tr c =>
          have := hS w tr c hw
          simp only [resultFor]
          rw [if_neg (Nat.ne_of_lt this)]
      have hP0 : probingFor s.jobs.length s.workers = [] := by
        apply filterMap_eq_nil_of_forall
        intro w y hw
        cases y with
        | idle => rfl
        | sending tr c => rfl
        | probing i =>
          obtain ⟨b, hb, _⟩ := hP w i hw
          have := (List.getElem?_eq_some_iff.mp hb).1
          simp only [itemFor]
          rw [if_neg (Nat.ne_of_lt this)]
      refine ⟨rfl, rfl, by simp, 0, Nat.zero_le _, by simp, ?_⟩
      simp [hS0, hP0]

theorem drop_eq_cons {α : Type} (l : List α) (m : Nat) (i : α) (rest : List α)
    (h : l.drop m = i :: rest) :
    m < l.length ∧ l.take (m + 1) = l.take m ++ [i] ∧ l.drop (m + 1) = rest := by
  have h0 : l[m]? = some i := by
    have : (l.drop m)[0]? = some i := by rw [h]; simp
    simpa [List.getElem?_drop] using this
  refine ⟨(List.getElem?_eq_some_iff.mp h0).1, ?_, ?_⟩
  · rw [List.take_succ, h0]
    rfl
  · have : List.drop 1 (List.drop m l) = rest := by rw [h]; rfl
    simpa [List.drop_drop] using this

theorem inv_take (env : Env) (s : System) (k w : Nat) (b : Job) (i : TestCase)
    (rest : List TestCase) (hinv : Inv env s) (hb : s.jobs[k]? = some b)
    (hw : s.workers[w]? = some Worker.idle) (hq : b.queue = i :: rest) :
    Inv env { s with jobs := s.jobs.set k { b with queue := rest },
                     workers := s.workers.set w (Worker.probing i) } := by
  obtain ⟨hP, hS, hJ⟩ := hinv
  have hklt : k < s.jobs.length := (List.getElem?_eq_some_iff.mp hb).1
  obtain ⟨hcb, hj, hfin, m, hm, hqm, hE⟩ := hJ k b hb
  rw [hq] at hqm
  obtain ⟨hmlt, htake, hdrop⟩ := drop_eq_cons _ m i rest hqm.symm
  have hi : i ∈ dispatch b.id k b.task := by
    apply List.mem_of_mem_drop (n := m)
    rw [← hqm]
    exact List.mem_cons_self _ _
  have hic : i.Callback = k := (dispatch_mem _ _ _ _ hi).2
  refine ⟨?_, ?_, ?_⟩
  · intro w' i' hw'
    refine getElem?_set_same_task s.jobs k b { b with queue := rest } hb rfl rfl i' ?_
    by_cases hww : w = w'
    · subst hww
      rw [List.getElem?_set_self (List.getElem?_eq_some_iff.mp hw).1] at hw'
      cases hw'
      refine ⟨b, ?_, ?_⟩
      · rw [hic]
        exact hb
      · rw [hic]
        exact hi
    · rw [List.getElem?_set_ne hww] at hw'
      exact hP w' i' hw'
  · intro w' tr c hw'
    simp only [List.length_set]
    by_cases hww : w = w'
    · subst hww
      rw [List.getElem?_set_self (List.getElem?_eq_some_iff.mp hw).1] at hw'
      cases hw'
    · rw [List.getElem?_set_ne hww] at hw'
      exact hS w' tr c hw'
  · intro k' b' hb'
    have hSet := sendingTo_set k' s.workers w Worker.idle (Worker.probing i) hw
    have hPet := probingFor_set k' s.workers w Worker.idle (Worker.probing i) hw
    simp only [resultFor, itemFor, Option.toList, Multiset.coe_nil, add_zero] at hSet hPet
    by_cases hkk : k = k'
    · subst hkk
      rw [List.getElem?_set_self hklt] at hb'
      cases hb'
      refine ⟨hcb, hj, hfin, m + 1, hmlt, hdrop.symm, ?_⟩
      simp only [hic, if_true, Multiset.coe_singleton] at hPet
      simp only [hSet, hPet, htake, ← Multiset.coe_add, Multiset.map_add,
        Multiset.map_singleton]
      rw [Multiset.map_add] at hE
      simp only [Multiset.coe_singleton, Multiset.map_singleton]
      rw [hE]
      abel
    · rw [List.getElem?_set_ne hkk] at hb'
      obtain ⟨hcb', hj', hfin', m', hm', hqm', hE'⟩ := hJ k' b' hb'
      refine ⟨hcb', hj', hfin', m', hm', hqm', ?_⟩
      have hne : ¬ i.Callback = k' := by rw [hic]; exact hkk
      simp only [hne, if_false, Multiset.coe_nil, add_zero] at hPet
      simp only [hSet, hPet]
      exact hE'

theorem inv_probe (env : Env) (s : System) (w now : Nat) (i : TestCase) (tr : Result)
    (hinv : Inv env s) (hw : s.workers[w]? = some (Worker.probing i))
    (hr : retrieveOne env now i = .ok tr) :
    Inv env { s with workers := s.workers.set w (Worker.sending tr i.Callback) } := by
  obtain ⟨hP, hS, hJ⟩ := hinv
  have hwlt : w < s.workers.length := (List.getElem?_eq_some_iff.mp hw).1
  have ho : outcome env i = some (untimed tr) := outcome_of_retrieveOne env now i tr hr
  refine ⟨?_, ?_, ?_⟩
  · intro w' i' hw'
    by_cases hww : w = w'
    · subst hww
      rw [List.getElem?_set_self hwlt] at hw'
      cases hw'
    · rw [List.getElem?_set_ne hww] at hw'
      exact hP w' i' hw'
  · intro w' tr' c hw'
    by_cases hww : w = w'
    · subst hww
      rw [List.getElem?_set_self hwlt] at hw'
      cases hw'
      obtain ⟨b, hb, _⟩ := hP w i hw
      exact (List.getElem?_eq_some_iff.mp hb).1
    · rw [List.getElem?_set_ne hww] at hw'
      exact hS w' tr' c hw'
  · intro k b hb
    obtain ⟨hcb, hj, hfin, m, hm, hqm, hE⟩ := hJ k b hb
    refine ⟨hcb, hj, hfin, m, hm, hqm, ?_⟩
    have hSet := sendingTo_set k s.workers w (Worker.probing i)
      (Worker.sending tr i.Callback) hw
    have hPet := probingFor_set k s.workers w (Worker.probing i)
      (Worker.sending tr i.Callback) hw
    simp only [resultFor, itemFor, Option.toList, Multiset.coe_nil, add_zero] at hSet hPet
    dsimp only
    by_cases hik : i.Callback = k
    · subst hik
      simp only [if_true, Multiset.coe_singleton] at hSet hPet
      rw [hSet, ← add_assoc, Multiset.map_add, Multiset.map_singleton, ← ho]
      rw [← hPet] at hE
      rw [hE]
      simp only [Multiset.map_add, Multiset.map_singleton]
      abel
    · simp only [hik, if_false, Multiset.coe_nil, add_zero] at hSet hPet
      rw [hSet, hPet]
      exact hE

theorem inv_deliver (env : Env) (s : System) (w : Nat) (tr : Result) (c : Chan) (b : Job)
    (hinv : Inv env s) (hw : s.workers[w]? = some (Worker.sending tr c))
    (hb : s.jobs[c]? = some b) :
    Inv env { s with jobs := s.jobs.set c (receive b tr),
                     workers := s.workers.set w Worker.idle } := by
  obtain ⟨hP, hS, hJ⟩ := hinv
  have hwlt : w < s.workers.length := (List.getElem?_eq_some_iff.mp hw).1
  have hclt : c < s.jobs.length := (List.getElem?_eq_some_iff.mp hb).1
  refine ⟨?_, ?_, ?_⟩
  · intro w' i' hw'
    refine getElem?_set_same_task s.jobs c b (receive b tr) hb rfl rfl i' ?_
    by_cases hww : w = w'
    · subst hww
      rw [List.getElem?_set_self hwlt] at hw'
      cases hw'
    · rw [List.getElem?_set_ne hww] at hw'
      exact hP w' i' hw'
  · intro w' tr' c' hw'
    simp only [List.length_set]
    by_cases hww : w = w'
    · subst hww
      rw [List.getElem?_set_self hwlt] at hw'
      cases hw'
    · rw [List.getElem?_set_ne hww] at hw'
      exact hS w' tr' c' hw'
  · intro k b' hb'
    have hSet := sendingTo_set k s.workers w (Worker.sending tr c) Worker.idle hw
    have hPet := probingFor_set k s.workers w (Worker.sending tr c) Worker.idle hw
    simp only [resultFor, itemFor, Option.toList, Multiset.coe_nil, add_zero] at hSet hPet
    by_cases hck : c = k
    · subst hck
      rw [List.getElem?_set_self hclt] at hb'
      cases hb'
      obtain ⟨hcb, hj, hfin, m, hm, hqm, hE⟩ := hJ c b hb
      refine ⟨hcb, ?_, ?_, m, hm, hqm, ?_⟩
      · simp [receive, hj]
      · simp only [receive, List.length_append, List.length_singleton, decide_eq_true_eq, hj]
        constructor
        · intro h
          exact ⟨Nat.le_add_left _ _, h⟩
        · intro h
          exact h.2
      · simp only [if_true, Multiset.coe_singleton] at hSet
        simp only [receive]
        rw [hPet, ← Multiset.coe_add b.results [tr], add_assoc,
          add_comm (↑[tr] : Multiset Result), Multiset.coe_singleton, hSet]
        exact hE
    · rw [List.getElem?_set_ne hck] at hb'
      obtain ⟨hcb, hj, hfin, m, hm, hqm, hE⟩ := hJ k b' hb'
      refine ⟨hcb, hj, hfin, m, hm, hqm, ?_⟩
      simp only [hck, if_false, Multiset.coe_nil, add_zero] at hSet
      rw [hSet, hPet]
      exact hE

/-- Every transition keeps the invariant. -/
theorem step_inv (env : Env) (s s' : System) (a : Action) (hinv : Inv env s)
    (hstep : step env s a = some s') : Inv env s' := by
  cases a with
  | fire id p =>
    obtain ⟨_, rfl⟩ := (step_fire_iff env s s' id p).mp hstep
    exact inv_fire env s id p hinv
  | take k w =>
    obtain ⟨_, b, i, rest, hb, hw, hq, rfl⟩ := (step_take_iff env s s' k w).mp hstep
    exact inv_take env s k w b i rest hinv hb hw hq
  | probe w now =>
    obtain ⟨_, i, hw, ⟨err, _, rfl⟩ | ⟨tr, hr, rfl⟩⟩ := (step_probe_iff env s s' w now).mp hstep
    · exact hinv
    · exact inv_probe env s w now i tr hinv hw hr
  | deliver w =>
    obtain ⟨_, tr, c, b, hw, hb, ⟨_, rfl⟩ | ⟨_, rfl⟩⟩ := (step_deliver_iff env s s' w).mp hstep
    · exact hinv
    · exact inv_deliver env s w tr c b hinv hw hb

/-- Every schedule keeps the invariant. -/
theorem run_inv (env : Env) (sched : List Action) :
    ∀ (s s' : System), Inv env s → run env s sched = some s' → Inv env s' := by
  induction sched with
  | nil =>
    intro s s' hinv h
    simp only [run, Option.some.injEq] at h
    exact h ▸ hinv
  | cons a rest ih =>
    intro s s' hinv h
    simp only [run] at h
    cases hs : step env s a with
    | none => simp [hs] at h
    | some s1 =>
      simp only [hs] at h
      exact ih s1 s' (step_inv env s s1 a hinv hs) h

/-! ## What the invariant says about a job -/

theorem mem_sendingTo (ws : List Worker) (w : Nat) (tr : Result) (c : Chan)
    (h : ws[w]? = some (Worker.sending tr c)) : tr ∈ sendingTo c ws :=
  mem_filterMap_of_getElem? (resultFor c) ws w _ tr h (by simp [resultFor])

theorem jobInv_count (env : Env) (ws : List Worker) (k : Nat) (b : Job)
    (h : JobInv env ws k b) :
    b.results.length + (sendingTo k ws).length + (probingFor k ws).length ≤ expected b.task := by
  obtain ⟨_, _, _, m, hm, _, hE⟩ := h
  have hc := congrArg Multiset.card hE
  simp only [Multiset.card_map, Multiset.card_add, Multiset.coe_card, List.length_take] at hc
  rw [dispatch_length] at hm hc
  omega

theorem jobInv_origin (env : Env) (ws : List Worker) (k : Nat) (b : Job)
    (h : JobInv env ws k b) (r : Result) (hr : r ∈ b.results ∨ r ∈ sendingTo k ws) :
    ∃ i ∈ dispatch b.id k b.task, outcome env i = some (untimed r) := by
  obtain ⟨_, _, _, m, _, _, hE⟩ := h
  have hmem : some (untimed r) ∈
      Multiset.map (outcome env) (((dispatch b.id k b.task).take m : List TestCase) : Multiset TestCase) := by
    rw [hE, Multiset.mem_add]
    left
    rw [Multiset.mem_map]
    refine ⟨r, ?_, rfl⟩
    rw [Multiset.mem_add]
    rcases hr with hr | hr
    · exact Or.inl (by simpa using hr)
    · exact Or.inr (by simpa using hr)
  rw [Multiset.mem_map] at hmem
  obtain ⟨i, hi, ho⟩ := hmem
  exact ⟨i, List.mem_of_mem_take (by simpa using hi), ho⟩

theorem outcome_fields (env : Env) (id : Int) (c : Chan) (p : Task) (i : TestCase)
    (r : Result) (hi : i ∈ dispatch id c p) (ho : outcome env i = some (untimed r)) :
    r.TaskID = id ∧ r.Target ∈ p.Targets ∧ ∃ t ∈ p.Tests, r.Name = t.Name := by
  obtain ⟨d, _, hr⟩ := probe_of_outcome env i _ ho
  simp only [dispatch, List.mem_flatMap, List.mem_map] at hi
  obtain ⟨tgt, htgt, t, ht, rfl⟩ := hi
  have h1 : r.TaskID = id := congrArg Result.TaskID hr
  have h2 : r.Target = tgt := congrArg Result.Target hr
  have h3 : r.Name = t.Name := congrArg Result.Name hr
  exact ⟨h1, h2 ▸ htgt, t, ht, h3⟩

/-- Claim C7: in every state the program reaches from `n` started workers,
whatever the tasks fired and however the steps of dispatch loops, workers and
aggregators interleave, the `k`-th job owns channel `k`, so no two jobs share
a sink; every item it has yet to send carries that channel and its id; an
item held by a worker belongs to the job owning the item's channel and carries
that job's id; a result parked in a send is bound for a job whose id it
carries; and every result a job has collected carries that job's id, so that
no result tagged `1` is among the results of a job with id `2`. -/
theorem no_cross_contamination (env : Env) (n : Nat) (sched : List Action) (s : System)
    (hrun : run env (start n) sched = some s) :
    (∀ (k : Nat) (b : Job), s.jobs[k]? = some b →
      b.callback = k ∧
      (∀ x ∈ b.queue, x.Callback = k ∧ x.TaskID = b.id) ∧
      (∀ r ∈ b.results, r.TaskID = b.id)) ∧
    (∀ (k k' : Nat) (b b' : Job), s.jobs[k]? = some b → s.jobs[k']? = some b' →
      k ≠ k' → b.callback ≠ b'.callback) ∧
    (∀ (w : Nat) (i : TestCase), s.workers[w]? = some (Worker.probing i) →
      ∃ b : Job, s.jobs[i.Callback]? = some b ∧ i.TaskID = b.id) ∧
    (∀ (w : Nat) (tr : Result) (c : Chan), s.workers[w]? = some (Worker.sending tr c) →
      ∃ b : Job, s.jobs[c]? = some b ∧ tr.TaskID = b.id) ∧
    (∀ (k : Nat) (b : Job), s.jobs[k]? = some b → b.id = 2 →
      ∀ r ∈ b.results, r.TaskID ≠ 1) := by
  have hinv : Inv env s := run_inv env sched (start n) s (inv_start env n) hrun
  obtain ⟨hP, hS, hJ⟩ := hinv
  have hres : ∀ (k : Nat) (b : Job), s.jobs[k]? = some b → ∀ r ∈ b.results, r.TaskID = b.id := by
    intro k b hb r hr
    obtain ⟨i, hi, ho⟩ := jobInv_origin env s.workers k b (hJ k b hb) r (Or.inl hr)
    exact (outcome_fields env b.id k b.task i r hi ho).1
  refine ⟨?_, ?_, ?_, ?_, ?_⟩
  · intro k b hb
    obtain ⟨hcb, _, _, m, _, hq, _⟩ := hJ k b hb
    refine ⟨hcb, ?_, hres k b hb⟩
    intro x hx
    rw [hq] at hx
    have := dispatch_mem b.id k b.task x (List.mem_of_mem_drop hx)
    exact ⟨this.2, this.1⟩
  · intro k k' b b' hb hb' hne
    rw [(hJ k b hb).1, (hJ k' b' hb').1]
    exact hne
  · intro w i hw
    obtain ⟨b, hb, hi⟩ := hP w i hw
    exact ⟨b, hb, (dispatch_mem _ _ _ _ hi).1⟩
  · intro w tr c hw
    have hlt := hS w tr c hw
    obtain ⟨b, hb⟩ : ∃ b, s.jobs[c]? = some b :=
      ⟨s.jobs[c], List.getElem?_eq_getElem hlt⟩
    obtain ⟨i, hi, ho⟩ := jobInv_origin env s.workers c b (hJ c b hb) tr
      (Or.inr (mem_sendingTo s.workers w tr c hw))
    exact ⟨b, hb, (outcome_fields env b.id c b.task i tr hi ho).1⟩
  · intro k b hb hid r hr
    rw [hres k b hb r hr, hid]
    decide

/-- Claim C7 on a run in which the jobs `1` and `2` take turns on the queue of
the five workers of `main`: job `2` ends up with the results tagged `2`. -/
theorem no_cross_contamination_witness :
    ∃ s : System,
      run service main contended = some s ∧
      (s.jobs.map fun b => (b.id, b.results.map fun r => (r.TaskID, r.Target))) =
        [(1, [(1, "a")]), (2, [(2, "a"), (2, "b")])] ∧
      ∀ (k : Nat) (b : Job), s.jobs[k]? = some b → b.id = 2 → ∀ r ∈ b.results, r.TaskID ≠ 1 := by
  refine ⟨_, rfl, rfl, ?_⟩
  exact (no_cross_contamination service 5 contended _ rfl).2.2.2.2

/-! ## What a step leaves alone, and what it uses up -/

theorem map_set_same {α β : Type} (f : α → β) (l : List α) (k : Nat) (y x : α)
    (h : l[k]? = some y) (hf : f x = f y) : (l.set k x).map f = l.map f := by
  induction l generalizing k with
  | nil => simp
  | cons a t ih =>
    cases k with
    | zero =>
      simp only [List.getElem?_cons_zero, Option.some.injEq] at h
      subst h
      simp [hf]
    | succ k =>
      simp only [List.getElem?_cons_succ] at h
      simp [ih k h]

/-- A step other than a firing changes neither which jobs there are nor how
many workers. -/
theorem step_keeps (env : Env) (s s' : System) (a : Action)
    (ha : isFire a = false) (hstep : step env s a = some s') :
    firings s' = firings s ∧ s'.workers.length = s.workers.length := by
  cases a with
  | fire id p => simp [isFire] at ha
  | take k w =>
    obtain ⟨_, b, i, rest, hb, hw, hq, rfl⟩ := (step_take_iff env s s' k w).mp hstep
    exact ⟨map_set_same _ s.jobs k b _ hb rfl, by simp⟩
  | probe w now =>
    obtain ⟨_, i, hw, ⟨err, _, rfl⟩ | ⟨tr, hr, rfl⟩⟩ := (step_probe_iff env s s' w now).mp hstep
    · exact ⟨rfl, rfl⟩
    · exact ⟨rfl, by simp⟩
  | deliver w =>
    obtain ⟨_, tr, c, b, hw, hb, ⟨_, rfl⟩ | ⟨_, rfl⟩⟩ := (step_deliver_iff env s s' w).mp hstep
    · exact ⟨rfl, rfl⟩
    · exact ⟨map_set_same _ s.jobs c b _ hb rfl, by simp⟩

/-- A firing keeps the jobs there are and the workers. -/
theorem step_keeps_earlier (env : Env) (s s' : System) (a : Action)
    (hstep : step env s a = some s') (k : Nat) (x : Int × Task)
    (hx : (firings s)[k]? = some x) :
    (firings s')[k]? = some x := by
  cases hfire : isFire a with
  | false =>
    rw [(step_keeps env s s' a hfire hstep).1]
    exact hx
  | true =>
    cases a with
    | fire id p =>
      obtain ⟨_, rfl⟩ := (step_fire_iff env s s' id p).mp hstep
      simp only [firings] at hx
      simp only [firings, fire, List.map_append]
      rw [List.getElem?_append_left (List.getElem?_eq_some_iff.mp hx).1]
      exact hx
    | take k w => simp [isFire] at hfire
    | probe w now => simp [isFire] at hfire
    | deliver w => simp [isFire] at hfire

theorem run_keeps_earlier (env : Env) (sched : List Action) :
    ∀ (s s' : System), run env s sched = some s' →
      ∀ (k : Nat) (x : Int × Task), (firings s)[k]? = some x → (firings s')[k]? = some x := by
  induction sched with
  | nil =>
    intro s s' h k x hx
    simp only [run, Option.some.injEq] at h
    exact h ▸ hx
  | cons a rest ih =>
    intro s s' h k x hx
    simp only [run] at h
    cases hs : step env s a with
    | none => simp [hs] at h
    | some s1 =>
      simp only [hs] at h
      exact ih s1 s' h k x (step_keeps_earlier env s s1 a hs k x hx)

theorem run_keeps (env : Env) (sched : List Action) :
    ∀ (s s' : System), NoFire sched → run env s sched = some s' →
      firings s' = firings s ∧ s'.workers.length = s.workers.length := by
  induction sched with
  | nil =>
    intro s s' _ h
    simp only [run, Option.some.injEq] at h
    exact h ▸ ⟨rfl, rfl⟩
  | cons a rest ih =>
    intro s s' hnf h
    simp only [run] at h
    cases hs : step env s a with
    | none => simp [hs] at h
    | some s1 =>
      simp only [hs] at h
      obtain ⟨h1, h2⟩ := step_keeps env s s1 a (hnf a (List.mem_cons_self _ _)) hs
      obtain ⟨h3, h4⟩ := ih s1 s' (fun x hx => hnf x (List.mem_cons_of_mem _ hx)) h
      exact ⟨h3.trans h1, h4.trans h2⟩

/-- Every step other than a firing uses up some of the work left. -/
theorem step_workLeft (env : Env) (s s' : System) (a : Action)
    (ha : isFire a = false) (hstep : step env s a = some s') :
    workLeft s' + 1 ≤ workLeft s := by
  cases a with
  | fire id p => simp [isFire] at ha
  | take k w =>
    obtain ⟨hc, b, i, rest, hb, hw, hq, rfl⟩ := (step_take_iff env s s' k w).mp hstep
    have h1 := sum_map_set_add (fun b : Job => 3 * b.queue.length) s.jobs k b
      { b with queue := rest } hb
    have h2 := sum_map_set_add stepsLeft s.workers w Worker.idle (Worker.probing i) hw
    simp only [hq, List.length_cons, stepsLeft] at h1 h2
    simp only [workLeft, hc]
    simp only [Bool.false_eq_true, if_false]
    omega
  | probe w now =>
    obtain ⟨hc, i, hw, ⟨err, _, rfl⟩ | ⟨tr, hr, rfl⟩⟩ := (step_probe_iff env s s' w now).mp hstep
    · simp [workLeft, hc]
    · have h2 := sum_map_set_add stepsLeft s.workers w (Worker.probing i)
        (Worker.sending tr i.Callback) hw
      simp only [stepsLeft] at h2
      simp only [workLeft, hc]
      simp only [Bool.false_eq_true, if_false]
      omega
  | deliver w =>
    obtain ⟨hc, tr, c, b, hw, hb, ⟨_, rfl⟩ | ⟨_, rfl⟩⟩ := (step_deliver_iff env s s' w).mp hstep
    · simp [workLeft, hc]
    · have h1 : ((s.jobs.set c (receive b tr)).map fun b : Job => 3 * b.queue.length).sum +
            3 * b.queue.length =
          (s.jobs.map fun b : Job => 3 * b.queue.length).sum + 3 * b.queue.length :=
        sum_map_set_add (fun b : Job => 3 * b.queue.length) s.jobs c b (receive b tr) hb
      have h2 := sum_map_set_add stepsLeft s.workers w (Worker.sending tr c) Worker.idle hw
      simp only [stepsLeft] at h2
      simp only [workLeft, hc]
      simp only [Bool.false_eq_true, if_false]
      omega

/-- A schedule without firings is no longer than the work there was. -/
theorem run_workLeft (env : Env) (sched : List Action) :
    ∀ (s s' : System), NoFire sched → run env s sched = some s' →
      sched.length + workLeft s' ≤ workLeft s := by
  induction sched with
  | nil =>
    intro s s' _ h
    simp only [run, Option.some.injEq] at h
    subst h
    simp
  | cons a rest ih =>
    intro s s' hnf h
    simp only [run] at h
    cases hs : step env s a with
    | none => simp [hs] at h
    | some s1 =>
      simp only [hs] at h
      have h1 := step_workLeft env s s1 a (hnf a (List.mem_cons_self _ _)) hs
      have h2 := ih s1 s' (fun x hx => hnf x (List.mem_cons_of_mem _ hx)) h
      simp only [List.length_cons]
      omega

/-! ## Panics -/

/-- No send of a worker ever meets a closed channel: while a result is parked
in a send to a job, the aggregator of that job has not finished. -/
theorem send_finds_open_channel (env : Env) (s : System) (hinv : Inv env s) (w : Nat)
    (tr : Result) (c : Chan) (b : Job) (hw : s.workers[w]? = some (Worker.sending tr c))
    (hb : s.jobs[c]? = some b) : b.finished = false := by
  have hJ := hinv.2.2 c b hb
  have hcount := jobInv_count env s.workers c b hJ
  have hpos : 0 < (sendingTo c s.workers).length :=
    List.length_pos_of_mem (mem_sendingTo s.workers w tr c hw)
  cases hf : b.finished with
  | false => rfl
  | true =>
    have := (hJ.2.2.1.mp hf).2
    omega

theorem allProbes_of_firings (env : Env) (s s' : System) (h : firings s' = firings s)
    (hok : AllProbesSucceed env s) : AllProbesSucceed env s' := by
  intro k b hb i hi
  have h1 : (firings s')[k]? = some (b.id, b.task) := by simp [firings, hb]
  rw [h] at h1
  simp only [firings, List.getElem?_map, Option.map_eq_some'] at h1
  obtain ⟨b0, hb0, h0⟩ := h1
  have hid : b0.id = b.id := congrArg Prod.fst h0
  have htask : b0.task = b.task := congrArg Prod.snd h0
  exact hok k b0 hb0 i (by rw [hid, htask]; exact hi)

/-- The process only goes down on a failed probe: where every probe asked for
succeeds, no step crashes it. -/
theorem step_no_crash (env : Env) (s s' : System) (a : Action) (hinv : Inv env s)
    (hok : AllProbesSucceed env s) (hstep : step env s a = some s') : s'.crashed = false := by
  cases a with
  | fire id p =>
    obtain ⟨hc, rfl⟩ := (step_fire_iff env s s' id p).mp hstep
    exact hc
  | take k w =>
    obtain ⟨hc, b, i, rest, hb, hw, hq, rfl⟩ := (step_take_iff env s s' k w).mp hstep
    exact hc
  | probe w now =>
    obtain ⟨hc, i, hw, ⟨err, herr, rfl⟩ | ⟨tr, hr, rfl⟩⟩ := (step_probe_iff env s s' w now).mp hstep
    · obtain ⟨b, hb, hi⟩ := hinv.1 w i hw
      obtain ⟨r, hr⟩ := hok i.Callback b hb i hi
      rw [retrieveOne_ok env now i r hr] at herr
      cases herr
    · exact hc
  | deliver w =>
    obtain ⟨hc, tr, c, b, hw, hb, ⟨hf, rfl⟩ | ⟨_, rfl⟩⟩ := (step_deliver_iff env s s' w).mp hstep
    · rw [send_finds_open_channel env s hinv w tr c b hw hb] at hf
      cases hf
    · exact hc

theorem run_no_crash (env : Env) (sched : List Action) :
    ∀ (s s' : System), NoFire sched → Inv env s → AllProbesSucceed env s →
      s.crashed = false → run env s sched = some s' → s'.crashed = false := by
  induction sched with
  | nil =>
    intro s s' _ _ _ hc h
    simp only [run, Option.some.injEq] at h
    exact h ▸ hc
  | cons a rest ih =>
    intro s s' hnf hinv hok _ h
    simp only [run] at h
    cases hs : step env s a with
    | none => simp [hs] at h
    | some s1 =>
      simp only [hs] at h
      have hk := step_keeps env s s1 a (hnf a (List.mem_cons_self _ _)) hs
      exact ih s1 s' (fun x hx => hnf x (List.mem_cons_of_mem _ hx))
        (step_inv env s s1 a hinv hs) (allProbes_of_firings env s s1 hk.1 hok)
        (step_no_crash env s s1 a hinv hok hs) h

/-! ## Where a run comes to rest -/

theorem quiescent_of_crashed (env : Env) (s : System) (hc : s.crashed = true) :
    Quiescent env s := by
  intro a _
  cases a <;> simp [step, hc]

/-- In a state that is up and at rest every worker is idle. -/
theorem quiescent_idle (env : Env) (s : System) (hinv : Inv env s) (hc : s.crashed = false)
    (hq : Quiescent env s) (w : Nat) (x : Worker) (hw : s.workers[w]? = some x) :
    x = Worker.idle := by
  cases x with
  | idle => rfl
  | probing i =>
    exfalso
    have hnone := hq (Action.probe w 0) rfl
    cases hr : retrieveOne env 0 i with
    | error err =>
      have := (step_probe_iff env s { s with crashed := true } w 0).mpr
        ⟨hc, i, hw, Or.inl ⟨err, hr, rfl⟩⟩
      rw [hnone] at this
      cases this
    | ok tr =>
      have := (step_probe_iff env s _ w 0).mpr ⟨hc, i, hw, Or.inr ⟨tr, hr, rfl⟩⟩
      rw [hnone] at this
      cases this
  | sending tr c =>
    exfalso
    have hnone := hq (Action.deliver w) rfl
    have hlt := hinv.2.1 w tr c hw
    have hb : s.jobs[c]? = some s.jobs[c] := List.getElem?_eq_getElem hlt
    have hf := send_finds_open_channel env s hinv w tr c _ hw hb
    have := (step_deliver_iff env s _ w).mpr ⟨hc, tr, c, _, hw, hb, Or.inr ⟨hf, rfl⟩⟩
    rw [hnone] at this
    cases this

/-- In a state that is up and at rest, with at least one worker, every job has
sent all its items and holds, timestamps aside, exactly one result per item
dispatched, the one its probe yields; it has finished if and only if it
expected at least one result. -/
theorem quiescent_complete (env : Env) (s : System) (hinv : Inv env s)
    (hc : s.crashed = false) (hq : Quiescent env s) (hn : 1 ≤ s.workers.length)
    (k : Nat) (b : Job) (hb : s.jobs[k]? = some b) :
    b.queue = [] ∧
    List.Perm (b.results.map fun r => some (untimed r))
      ((dispatch b.id k b.task).map (outcome env)) ∧
    b.results.length = expected b.task ∧
    (b.finished = true ↔ 1 ≤ expected b.task) := by
  have hidle := quiescent_idle env s hinv hc hq
  have hw0 : s.workers[0]? = some Worker.idle := by
    have h0 : s.workers[0]? = some s.workers[0] := List.getElem?_eq_getElem hn
    rw [h0, hidle 0 _ h0]
  have hqueue : b.queue = [] := by
    cases hqq : b.queue with
    | nil => rfl
    | cons i rest =>
      exfalso
      have hnone := hq (Action.take k 0) rfl
      have := (step_take_iff env s _ k 0).mpr ⟨hc, b, i, rest, hb, hw0, hqq, rfl⟩
      rw [hnone] at this
      cases this
  have hS : sendingTo k s.workers = [] := by
    apply filterMap_eq_nil_of_forall
    intro w y hw
    rw [hidle w y hw]
    rfl
  have hP : probingFor k s.workers = [] := by
    apply filterMap_eq_nil_of_forall
    intro w y hw
    rw [hidle w y hw]
    rfl
  obtain ⟨_, _, hfin, m, hm, hqm, hE⟩ := hinv.2.2 k b hb
  rw [hqueue] at hqm
  have hml : (dispatch b.id k b.task).length ≤ m := List.drop_eq_nil_iff.mp hqm.symm
  rw [hS, hP, List.take_of_length_le hml] at hE
  simp only [Multiset.coe_nil, add_zero, Multiset.map_zero, Multiset.map_coe, List.map_nil,
    Multiset.coe_eq_coe] at hE
  have hlen : b.results.length = expected b.task := by
    have := hE.length_eq
    simp only [List.length_map, dispatch_length] at this
    exact this.symm
  refine ⟨hqueue, hE.symm, hlen, ?_⟩
  rw [hfin, hlen]
  constructor
  · intro h
    exact h.1
  · intro h
    exact ⟨h, le_refl _⟩

/-! ## Reports -/

theorem map_outcome_dispatch (env : Env) (id : Int) (c : Chan) (p : Task) :
    (dispatch id c p).map (outcome env) = pairResults env id p := by
  simp only [dispatch, pairResults, List.map_flatMap, List.map_map]
  congr 1
  funext tgt
  congr 1
  funext t
  simp only [Function.comp, outcome, retrieveOne]
  cases probe env t.Path tgt <;> rfl

/-- A job that has finished holds, timestamps aside, exactly one result per
item dispatched, the one its probe yields. -/
theorem finished_complete (env : Env) (s : System) (hinv : Inv env s) (k : Nat) (b : Job)
    (hb : s.jobs[k]? = some b) (hf : b.finished = true) :
    b.results.length = expected b.task ∧
    List.Perm (b.results.map fun r => some (untimed r)) (pairResults env b.id b.task) := by
  have hJ := hinv.2.2 k b hb
  have hcount := jobInv_count env s.workers k b hJ
  obtain ⟨_, _, hfin, m, hm, _, hE⟩ := hJ
  have hge := (hfin.mp hf).2
  have hS : sendingTo k s.workers = [] := List.length_eq_zero.mp (by omega)
  have hP : probingFor k s.workers = [] := List.length_eq_zero.mp (by omega)
  have hc := congrArg Multiset.card hE
  simp only [Multiset.card_map, Multiset.card_add, Multiset.coe_card, List.length_take,
    hS, hP, List.length_nil, add_zero, dispatch_length] at hc
  have hml : (dispatch b.id k b.task).length ≤ m := by
    rw [dispatch_length]
    omega
  rw [hS, hP, List.take_of_length_le hml] at hE
  simp only [Multiset.coe_nil, add_zero, Multiset.map_zero, Multiset.map_coe, List.map_nil,
    Multiset.coe_eq_coe] at hE
  rw [map_outcome_dispatch] at hE
  exact ⟨by omega, hE.symm⟩

/-- A job one of whose probes fails never finishes. -/
theorem unfinished_of_failed_probe (env : Env) (s : System) (hinv : Inv env s) (k : Nat)
    (b : Job) (hb : s.jobs[k]? = some b) (hfail : none ∈ pairResults env b.id b.task) :
    b.finished = false := by
  cases hf : b.finished with
  | false => rfl
  | true =>
    have h := (finished_complete env s hinv k b hb hf).2
    have := h.symm.subset hfail
    simp at this

/-- From every state the workers and dispatch loops can be run until nothing
can move. -/
theorem exists_quiescent (env : Env) :
    ∀ (n : Nat) (s : System), workLeft s ≤ n →
      ∃ (sched : List Action) (s' : System),
        NoFire sched ∧ run env s sched = some s' ∧ Quiescent env s' := by
  intro n
  induction n with
  | zero =>
    intro s hs
    refine ⟨[], s, by simp [NoFire], rfl, ?_⟩
    intro a ha
    cases hstep : step env s a with
    | none => rfl
    | some s1 =>
      have := step_workLeft env s s1 a ha hstep
      omega
  | succ n ih =>
    intro s hs
    by_cases hq : Quiescent env s
    · exact ⟨[], s, by simp [NoFire], rfl, hq⟩
    · simp only [Quiescent, not_forall] at hq
      obtain ⟨a, ha, hne⟩ := hq
      cases hstep : step env s a with
      | none => exact absurd hstep hne
      | some s1 =>
        have hlt := step_workLeft env s s1 a ha hstep
        obtain ⟨sched, s', hnf, hrun, hq'⟩ := ih s1 (by omega)
        refine ⟨a :: sched, s', ?_, by simp [run, hstep, hrun], hq'⟩
        intro x hx
        rcases List.mem_cons.mp hx with rfl | hx
        · exact ha
        · exact hnf x hx

/-! ## One task on a fresh pool -/

theorem firings_singleton (s : System) (id : Int) (p : Task) (h : firings s = [(id, p)]) :
    ∃ b : Job, s.jobs = [b] ∧ b.id = id ∧ b.task = p := by
  simp only [firings] at h
  cases hj : s.jobs with
  | nil => simp [hj] at h
  | cons b t =>
    cases t with
    | nil =>
      simp only [hj, List.map_cons, List.map_nil, List.cons.injEq, Prod.mk.injEq, and_true] at h
      exact ⟨b, rfl, h.1, h.2⟩
    | cons b' t' => simp [hj] at h

theorem workLeft_fire_start (n : Nat) (id : Int) (p : Task) :
    workLeft (fire (start n) id p) = 1 + 3 * expected p := by
  simp [workLeft, fire, start, dispatch_length, stepsLeft]

theorem allProbes_fire_start (env : Env) (n : Nat) (id : Int) (p : Task)
    (hok : ∀ tgt ∈ p.Targets, ∀ t ∈ p.Tests, ∃ r, probe env t.Path tgt = .ok r) :
    AllProbesSucceed env (fire (start n) id p) := by
  intro k b hb i hi
  simp only [fire, start, List.nil_append, List.length_nil] at hb
  cases k with
  | zero =>
    simp only [List.getElem?_cons_zero, Option.some.injEq] at hb
    subst hb
    simp only [dispatch, List.mem_flatMap, List.mem_map] at hi
    obtain ⟨tgt, htgt, t, ht, rfl⟩ := hi
    exact hok tgt htgt t ht
  | succ k => simp at hb

theorem quiescent_of_idle (env : Env) (s : System)
    (hq : ∀ b ∈ s.jobs, b.queue = []) (hw : ∀ w ∈ s.workers, w = Worker.idle) :
    Quiescent env s := by
  intro a ha
  cases hstep : step env s a with
  | none => rfl
  | some s' =>
    exfalso
    cases a with
    | fire id p => simp [isFire] at ha
    | take k w =>
      obtain ⟨_, b, i, rest, hb, _, hqq, _⟩ := (step_take_iff env s s' k w).mp hstep
      rw [hq b (List.getElem?_mem hb)] at hqq
      cases hqq
    | probe w now =>
      obtain ⟨_, i, hwi, _⟩ := (step_probe_iff env s s' w now).mp hstep
      have := hw _ (List.getElem?_mem hwi)
      cases this
    | deliver w =>
      obtain ⟨_, tr, c, b, hwi, _⟩ := (step_deliver_iff env s s' w).mp hstep
      have := hw _ (List.getElem?_mem hwi)
      cases this

/-- Claim C2, on the inputs where the code departs from it: after a task whose
expected count is zero has been fired on `n` workers nothing is dispatched for
it, and in every state the program reaches from there, whatever else is fired
and served, its aggregator has no result and has not finished: it stays parked
on its receive and never writes the report of zero results. -/
theorem empty_task_never_reports (env : Env) (n : Nat) (id : Int) (p : Task)
    (sched : List Action) (s : System) (hp : expected p = 0)
    (hrun : run env (fire (start n) id p) sched = some s) :
    dispatch id 0 p = [] ∧ Quiescent env (fire (start n) id p) ∧
    ∃ b : Job, s.jobs[0]? = some b ∧ b.id = id ∧ b.task = p ∧
      b.results = [] ∧ b.finished = false := by
  have hd : dispatch id 0 p = [] := List.length_eq_zero.mp (by rw [dispatch_length, hp])
  have hinv : Inv env s :=
    run_inv env sched _ s (inv_fire env (start n) id p (inv_start env n)) hrun
  have h0 : (firings (fire (start n) id p))[0]? = some (id, p) := rfl
  have h1 := run_keeps_earlier env sched _ s hrun 0 (id, p) h0
  simp only [firings, List.getElem?_map, Option.map_eq_some'] at h1
  obtain ⟨b, hb, hbp⟩ := h1
  have hid : b.id = id := congrArg Prod.fst hbp
  have htask : b.task = p := congrArg Prod.snd hbp
  have hJ := hinv.2.2 0 b hb
  have hcount := jobInv_count env s.workers 0 b hJ
  rw [htask, hp] at hcount
  have hres : b.results = [] := List.length_eq_zero.mp (by omega)
  refine ⟨hd, ?_, b, hb, hid, htask, hres, ?_⟩
  · apply quiescent_of_idle
    · intro b' hb'
      simp only [fire, start, List.nil_append, List.length_nil, List.mem_singleton] at hb'
      rw [hb', hd]
    · intro w hw
      exact List.eq_of_mem_replicate hw
  · cases hf : b.finished with
    | false => rfl
    | true =>
      have := (hJ.2.2.1.mp hf).1
      rw [hres] at this
      simp at this

/-- Claim C2 on the task without targets, fired on the five workers of `main`
before a second task that is fired and served beside it. -/
theorem empty_task_never_reports_witness :
    expected taskNoTargets = 0 ∧
    ∃ s : System, run service (fire (start 5) 1 taskNoTargets) besideEmpty = some s ∧
      ∃ b : Job, s.jobs[0]? = some b ∧ b.id = 1 ∧ b.task = taskNoTargets ∧
        b.results = [] ∧ b.finished = false := by
  refine ⟨rfl, _, rfl, ?_⟩
  exact (empty_task_never_reports service 5 1 taskNoTargets besideEmpty _ rfl rfl).2.2

/-- Claim C8 as stated fails: on the scenario task with the request for `b`
failing, a run of the five workers of `main` serves `a`, goes down on the
probe of `b` and comes to rest with one result and no report; and on no run at
all does the job finish. -/
theorem end_to_end_fails_on_failed_probe :
    (∃ s : System, run flaky (fire main 1 taskAB) firstThenSecond = some s ∧
      s.crashed = true ∧ Quiescent flaky s ∧
      (s.jobs.map fun b => (b.finished, b.results.length)) = [(false, 1)]) ∧
    (∀ (sched : List Action) (s : System) (b : Job),
      run flaky (fire main 1 taskAB) sched = some s → s.jobs[0]? = some b →
      b.finished = false) := by
  constructor
  · exact ⟨_, rfl, rfl, quiescent_of_crashed flaky _ rfl, rfl⟩
  · intro sched s b hrun hb
    have hinv : Inv flaky s :=
      run_inv flaky sched _ s (inv_fire flaky (start 5) 1 taskAB (inv_start flaky 5)) hrun
    have h0 : (firings (fire main 1 taskAB))[0]? = some (1, taskAB) := rfl
    have h1 := run_keeps_earlier flaky sched _ s hrun 0 (1, taskAB) h0
    simp only [firings, List.getElem?_map, Option.map_eq_some', hb, Option.some.injEq,
      exists_eq_left'] at h1
    have hid : b.id = 1 := congrArg Prod.fst h1
    have htask : b.task = taskAB := congrArg Prod.snd h1
    apply unfinished_of_failed_probe flaky s hinv 0 b hb
    rw [hid, htask]
    decide

/-- One task with at least one pair fired alone on a fresh pool of at least
one worker, every probe of its pairs succeeding: no run crashes, every run
takes at most three steps per pair and can be continued until nothing can
move, a run at rest has the job finished, and a finished job holds, up to
order and timestamps, one result per pair. -/
theorem single_firing_report (env : Env) (n : Nat) (id : Int) (p : Task)
    (sched : List Action) (s : System) (hn : 1 ≤ n) (hp : 1 ≤ expected p)
    (hok : ∀ tgt ∈ p.Targets, ∀ t ∈ p.Tests, ∃ r, probe env t.Path tgt = .ok r)
    (hnf : NoFire sched) (hrun : run env (fire (start n) id p) sched = some s) :
    s.crashed = false ∧ sched.length ≤ 3 * expected p ∧
    (∃ (sched' : List Action) (s' : System),
      NoFire sched' ∧ run env s sched' = some s' ∧ Quiescent env s') ∧
    ∃ b : Job, s.jobs = [b] ∧ b.id = id ∧ b.task = p ∧
      (Quiescent env s → b.finished = true) ∧
      (b.finished = true →
        b.results.length = p.Targets.length * p.Tests.length ∧
        List.Perm (b.results.map fun r => some (untimed r)) (pairResults env id p) ∧
        none ∉ pairResults env id p) := by
  have hinv0 : Inv env (fire (start n) id p) := inv_fire env (start n) id p (inv_start env n)
  have hinv : Inv env s := run_inv env sched _ s hinv0 hrun
  have hok0 := allProbes_fire_start env n id p hok
  have hc : s.crashed = false := run_no_crash env sched _ s hnf hinv0 hok0 rfl hrun
  obtain ⟨hfir, hwl⟩ := run_keeps env sched _ s hnf hrun
  have hwork := run_workLeft env sched _ s hnf hrun
  rw [workLeft_fire_start] at hwork
  have hpos : 1 ≤ workLeft s := by simp [workLeft, hc]
  obtain ⟨b, hjobs, hid, htask⟩ := firings_singleton s id p hfir
  have hb : s.jobs[0]? = some b := by rw [hjobs]; rfl
  have hwn : 1 ≤ s.workers.length := by
    rw [hwl]
    simpa [fire, start] using hn
  refine ⟨hc, by omega, exists_quiescent env (workLeft s) s (le_refl _), b, hjobs, hid, htask,
    ?_, ?_⟩
  · intro hq
    rw [(quiescent_complete env s hinv hc hq hwn 0 b hb).2.2.2, htask]
    exact hp
  · intro hf
    obtain ⟨hlen, hperm⟩ := finished_complete env s hinv 0 b hb hf
    rw [hid, htask] at hperm
    rw [htask] at hlen
    refine ⟨hlen, hperm, ?_⟩
    intro hnone
    have := hperm.symm.subset hnone
    simp at this

theorem noFire_of_all (sched : List Action)
    (h : sched.all (fun a => !isFire a) = true) : NoFire sched := by
  intro a ha
  have := List.all_eq_true.mp h a ha
  simpa using this

/-! ## Pools of different sizes -/

/-- A run at rest of one task on a pool of at least one worker, the process
up: the job holds, timestamps aside, one result per pair. -/
theorem rest_report (env : Env) (n : Nat) (id : Int) (p : Task) (sched : List Action)
    (s : System) (hn : 1 ≤ n) (hc : s.crashed = false) (hnf : NoFire sched)
    (hrun : run env (fire (start n) id p) sched = some s) (hq : Quiescent env s) :
    ∃ b : Job, s.jobs = [b] ∧
      List.Perm (b.results.map fun r => some (untimed r)) (pairResults env id p) := by
  have hinv : Inv env s :=
    run_inv env sched _ s (inv_fire env (start n) id p (inv_start env n)) hrun
  obtain ⟨hfir, hwl⟩ := run_keeps env sched _ s hnf hrun
  obtain ⟨b, hjobs, hid, htask⟩ := firings_singleton s id p hfir
  have hb : s.jobs[0]? = some b := by rw [hjobs]; rfl
  have hwn : 1 ≤ s.workers.length := by
    rw [hwl]
    simpa [fire, start] using hn
  have h := (quiescent_complete env s hinv hc hq hwn 0 b hb).2.1
  rw [map_outcome_dispatch, hid, htask] at h
  exact ⟨b, hjobs, h⟩

theorem perm_of_perm_map_some (l₁ l₂ : List Result)
    (h : List.Perm (l₁.map fun r => some (untimed r)) (l₂.map fun r => some (untimed r))) :
    List.Perm (l₁.map untimed) (l₂.map untimed) := by
  have e : ∀ l : List Result,
      List.filterMap id (l.map fun r => some (untimed r)) = l.map untimed := by
    intro l
    induction l with
    | nil => rfl
    | cons a t ih => simp [List.filterMap_cons, ih]
  have := h.filterMap id
  rw [e, e] at this
  exact this

/-- Claim C10, amended: when every probe of the task succeeds, a pool of one
worker and the pool of five workers started in `main`, each run on the items
of the same task until nothing can move, end with the same multiset of
results, timestamps aside: one result per item, as the probes decode. -/
theorem pool_size_irrelevant (env : Env) (id : Int) (p : Task)
    (sched1 sched5 : List Action) (s1 s5 : System)
    (hok : ∀ tgt ∈ p.Targets, ∀ t ∈ p.Tests, ∃ r, probe env t.Path tgt = .ok r)
    (hnf1 : NoFire sched1) (hrun1 : run env (fire (start 1) id p) sched1 = some s1)
    (hq1 : Quiescent env s1)
    (hnf5 : NoFire sched5) (hrun5 : run env (fire main id p) sched5 = some s5)
    (hq5 : Quiescent env s5) :
    ∃ b1 b5 : Job, s1.jobs = [b1] ∧ s5.jobs = [b5] ∧
      List.Perm (b1.results.map untimed) (b5.results.map untimed) ∧
      List.Perm (b1.results.map fun r => some (untimed r)) (pairResults env id p) ∧
      b1.results.length = expected p ∧ b5.results.length = expected p := by
  have hc1 : s1.crashed = false :=
    run_no_crash env sched1 _ s1 hnf1 (inv_fire env (start 1) id p (inv_start env 1))
      (allProbes_fire_start env 1 id p hok) rfl hrun1
  have hc5 : s5.crashed = false :=
    run_no_crash env sched5 _ s5 hnf5 (inv_fire env (start 5) id p (inv_start env 5))
      (allProbes_fire_start env 5 id p hok) rfl hrun5
  obtain ⟨b1, hj1, hp1⟩ := rest_report env 1 id p sched1 s1 (le_refl _) hc1 hnf1 hrun1 hq1
  obtain ⟨b5, hj5, hp5⟩ := rest_report env 5 id p sched5 s5 (by decide) hc5 hnf5 hrun5 hq5
  have hlen : (pairResults env id p).length = expected p := by
    rw [← map_outcome_dispatch env id 0 p, List.length_map, dispatch_length]
  refine ⟨b1, b5, hj1, hj5, perm_of_perm_map_some _ _ (hp1.trans hp5.symm), hp1, ?_, ?_⟩
  · have := hp1.length_eq
    rw [List.length_map, hlen] at this
    exact this
  · have := hp5.length_eq
    rw [List.length_map, hlen] at this
    exact this

theorem service_answers_taskTen :
    ∀ tgt ∈ taskTen.Targets, ∀ t ∈ taskTen.Tests, ∃ r, probe service t.Path tgt = .ok r := by
  intro tgt htgt t ht
  have ht' : t = ping := by simpa [taskTen] using ht
  subst ht'
  simp only [taskTen, List.mem_cons, List.mem_singleton, List.not_mem_nil, or_false] at htgt
  rcases htgt with rfl | rfl | rfl | rfl | rfl | rfl | rfl | rfl | rfl | rfl
  · exact ⟨(false, "timeout"), rfl⟩
  all_goals exact ⟨(true, "ok"), rfl⟩

/-- Claim C10, amended, on the ten items of `taskTen` with every probe
succeeding: one worker serving them one by one and five workers serving them
five at a time end with the same ten results. -/
theorem pool_size_irrelevant_witness :
    (dispatch 1 0 taskTen).length = 10 ∧
    run service (fire (start 1) 1 taskTen) (serial 10) =
      some (after service (fire (start 1) 1 taskTen) (serial 10)) ∧
    run service (fire main 1 taskTen) (batched 2) =
      some (after service (fire main 1 taskTen) (batched 2)) ∧
    ∃ b1 b5 : Job,
      (after service (fire (start 1) 1 taskTen) (serial 10)).jobs = [b1] ∧
      (after service (fire main 1 taskTen) (batched 2)).jobs = [b5] ∧
      List.Perm (b1.results.map untimed) (b5.results.map untimed) ∧
      b1.results.length = 10 ∧ b5.results.length = 10 := by
  refine ⟨rfl, rfl, rfl, ?_⟩
  obtain ⟨b1, b5, h1, h5, hperm, _, hl1, hl5⟩ :=
    pool_size_irrelevant service 1 taskTen (serial 10) (batched 2)
      (after service (fire (start 1) 1 taskTen) (serial 10))
      (after service (fire main 1 taskTen) (batched 2))
      service_answers_taskTen (noFire_of_all _ rfl) rfl
      (quiescent_of_idle service _ (by decide) (by decide))
      (noFire_of_all _ rfl) rfl
      (quiescent_of_idle service _ (by decide) (by decide))
  exact ⟨b1, b5, h1, h5, hperm, hl1, hl5⟩
theorem getElem?_singleton_eq {α : Type} (x y : α) (w : Nat) (h : [x][w]? = some y) :
    w = 0 ∧ x = y := by
  cases w with
  | zero => exact ⟨rfl, by simpa using h⟩
  | succ w => simp at h

/-- A single worker whose first item fails its probe never gets a result
through: it takes that item, goes down on its probe, and the job is left
without results. -/
theorem lone_worker_stuck (env : Env) (id : Int) (p : Task) (i0 : TestCase)
    (rest0 : List TestCase) (hd : dispatch id 0 p = i0 :: rest0)
    (hfail : ∃ err, probe env i0.Path i0.Target = .error err) (sched : List Action) :
    ∀ (s s' : System),
      ((s.workers = [Worker.idle] ∧ s.jobs = (fire (start 1) id p).jobs) ∨
       (s.workers = [Worker.probing i0] ∧ ∀ b ∈ s.jobs, b.results = [])) →
      NoFire sched → run env s sched = some s' → ∀ b ∈ s'.jobs, b.results = [] := by
  induction sched with
  | nil =>
    intro s s' hR _ hrun
    simp only [run, Option.some.injEq] at hrun
    subst hrun
    rcases hR with ⟨_, hj⟩ | ⟨_, hres⟩
    · intro b hb
      rw [hj] at hb
      simp only [fire, start, List.nil_append, List.mem_singleton] at hb
      rw [hb]
    · exact hres
  | cons a rest ih =>
    intro s s' hR hnf hrun
    simp only [run] at hrun
    cases hs : step env s a with
    | none => simp [hs] at hrun
    | some s1 =>
      simp only [hs] at hrun
      refine ih s1 s' ?_ (fun x hx => hnf x (List.mem_cons_of_mem _ hx)) hrun
      have ha := hnf a (List.mem_cons_self _ _)
      cases a with
      | fire id' p' => simp [isFire] at ha
      | take k w =>
        obtain ⟨_, b, i, tl, hb, hw, hq, rfl⟩ := (step_take_iff env s s1 k w).mp hs
        rcases hR with ⟨hws, hj⟩ | ⟨hws, _⟩
        · right
          rw [hws] at hw
          obtain ⟨rfl, _⟩ := getElem?_singleton_eq _ _ w hw
          rw [hj] at hb
          simp only [fire, start, List.nil_append, List.length_nil] at hb
          obtain ⟨rfl, hb0⟩ := getElem?_singleton_eq _ _ k hb
          subst hb0
          simp only [hd, List.cons.injEq] at hq
          obtain ⟨rfl, rfl⟩ := hq
          constructor
          · simp [hws]
          · intro b' hb'
            simp only [hj, fire, start, List.nil_append, List.length_nil, List.set_cons_zero,
              List.mem_singleton] at hb'
            rw [hb']
        · rw [hws] at hw
          obtain ⟨_, h⟩ := getElem?_singleton_eq _ _ w hw
          cases h
      | probe w now =>
        obtain ⟨_, i, hw, ⟨err, _, rfl⟩ | ⟨tr, hr, rfl⟩⟩ := (step_probe_iff env s s1 w now).mp hs
        · rcases hR with ⟨hws, _⟩ | ⟨hws, hres⟩
          · rw [hws] at hw
            obtain ⟨_, h⟩ := getElem?_singleton_eq _ _ w hw
            cases h
          · exact Or.inr ⟨hws, hres⟩
        · exfalso
          rcases hR with ⟨hws, _⟩ | ⟨hws, _⟩
          · rw [hws] at hw
            obtain ⟨_, h⟩ := getElem?_singleton_eq _ _ w hw
            cases h
          · rw [hws] at hw
            obtain ⟨_, h⟩ := getElem?_singleton_eq _ _ w hw
            cases h
            obtain ⟨err, herr⟩ := hfail
            rw [retrieveOne_error env now i0 err herr] at hr
            cases hr
      | deliver w =>
        exfalso
        obtain ⟨_, tr, c, b, hw, _⟩ := (step_deliver_iff env s s1 w).mp hs
        rcases hR with ⟨hws, _⟩ | ⟨hws, _⟩
        · rw [hws] at hw
          obtain ⟨_, h⟩ := getElem?_singleton_eq _ _ w hw
          cases h
        · rw [hws] at hw
          obtain ⟨_, h⟩ := getElem?_singleton_eq _ _ w hw
          cases h

/-- Claim C10 as stated fails: on the ten items of `taskTen` with the request
for `b`, the first item, failing, the five workers of `main` have a run that
comes to rest with the result for `a` delivered, while a single worker comes
to rest with no result, on the run shown and on every run there is. -/
theorem pool_size_matters_on_failed_probe :
    (dispatch 1 0 taskTen).length = 10 ∧
    (run flaky (fire main 1 taskTen) secondOvertakes =
        some (after flaky (fire main 1 taskTen) secondOvertakes) ∧
      Quiescent flaky (after flaky (fire main 1 taskTen) secondOvertakes) ∧
      ((after flaky (fire main 1 taskTen) secondOvertakes).jobs.map fun b =>
        b.results.map untimed) = [[⟨1, "ping", "a", 0, true, "ok"⟩]]) ∧
    (run flaky (fire (start 1) 1 taskTen) firstOnly =
        some (after flaky (fire (start 1) 1 taskTen) firstOnly) ∧
      Quiescent flaky (after flaky (fire (start 1) 1 taskTen) firstOnly) ∧
      ((after flaky (fire (start 1) 1 taskTen) firstOnly).jobs.map fun b =>
        b.results.map untimed) = [[]]) ∧
    (∀ (sched : List Action) (s : System), NoFire sched →
      run flaky (fire (start 1) 1 taskTen) sched = some s → ∀ b ∈ s.jobs, b.results = []) := by
  refine ⟨rfl, ⟨rfl, quiescent_of_crashed flaky _ rfl, rfl⟩,
    ⟨rfl, quiescent_of_crashed flaky _ rfl, rfl⟩, ?_⟩
  intro sched s hnf hrun
  exact lone_worker_stuck flaky 1 taskTen ⟨1, "ping", "http://x/%s", "b", 0⟩ _ rfl
    ⟨"timeout", rfl⟩ sched _ s (Or.inl ⟨rfl, rfl⟩) hnf hrun

/-! ## Any number of firings -/

theorem allProbes_of_earlier (env : Env) (s s' : System)
    (h : ∀ (k : Nat) (x : Int × Task), (firings s)[k]? = some x → (firings s')[k]? = some x)
    (hok : AllProbesSucceed env s') : AllProbesSucceed env s := by
  intro k b hb i hi
  have h1 : (firings s)[k]? = some (b.id, b.task) := by simp [firings, hb]
  have h2 := h k _ h1
  simp only [firings, List.getElem?_map, Option.map_eq_some'] at h2
  obtain ⟨b', hb', h0⟩ := h2
  have hid : b'.id = b.id := congrArg Prod.fst h0
  have htask : b'.task = b.task := congrArg Prod.snd h0
  exact hok k b' hb' i (by rw [hid, htask]; exact hi)

theorem allProbes_of_tasks (env : Env) (s : System)
    (h : ∀ x ∈ firings s, ∀ tgt ∈ x.2.Targets, ∀ t ∈ x.2.Tests,
      ∃ r, probe env t.Path tgt = .ok r) : AllProbesSucceed env s := by
  intro k b hb i hi
  simp only [dispatch, List.mem_flatMap, List.mem_map] at hi
  obtain ⟨tgt, htgt, t, ht, rfl⟩ := hi
  exact h (b.id, b.task) (List.mem_map.mpr ⟨b, List.getElem?_mem hb, rfl⟩) tgt htgt t ht

/-- Where every probe asked for up to the end of a run succeeds, the run does
not crash, whatever is fired on the way. -/
theorem run_no_crash_fired (env : Env) (sched : List Action) :
    ∀ (s s' : System), Inv env s → s.crashed = false → run env s sched = some s' →
      AllProbesSucceed env s' → s'.crashed = false := by
  induction sched with
  | nil =>
    intro s s' _ hc h _
    simp only [run, Option.some.injEq] at h
    exact h ▸ hc
  | cons a rest ih =>
    intro s s' hinv _ h hok
    simp only [run] at h
    cases hs : step env s a with
    | none => simp [hs] at h
    | some s1 =>
      simp only [hs] at h
      have hok1 : AllProbesSucceed env s1 :=
        allProbes_of_earlier env s1 s' (run_keeps_earlier env rest s1 s' h) hok
      have hok0 : AllProbesSucceed env s :=
        allProbes_of_earlier env s s1 (step_keeps_earlier env s s1 a hs) hok1
      exact ih s1 s' (step_inv env s s1 a hinv hs) (step_no_crash env s s1 a hinv hok0 hs) h hok

theorem step_workers_length (env : Env) (s s' : System) (a : Action)
    (hstep : step env s a = some s') : s'.workers.length = s.workers.length := by
  cases hfire : isFire a with
  | false => exact (step_keeps env s s' a hfire hstep).2
  | true =>
    cases a with
    | fire id p =>
      obtain ⟨_, rfl⟩ := (step_fire_iff env s s' id p).mp hstep
      rfl
    | take k w => simp [isFire] at hfire
    | probe w now => simp [isFire] at hfire
    | deliver w => simp [isFire] at hfire

theorem run_workers_length (env : Env) (sched : List Action) :
    ∀ (s s' : System), run env s sched = some s' → s'.workers.length = s.workers.length := by
  induction sched with
  | nil =>
    intro s s' h
    simp only [run, Option.some.injEq] at h
    exact h ▸ rfl
  | cons a rest ih =>
    intro s s' h
    simp only [run] at h
    cases hs : step env s a with
    | none => simp [hs] at h
    | some s1 =>
      simp only [hs] at h
      exact (ih s1 s' h).trans (step_workers_length env s s1 a hs)

/-- The jobs of a state are the jobs there were and, after them, one per
firing of the schedule, in order. -/
theorem run_firings (env : Env) (sched : List Action) :
    ∀ (s s' : System), run env s sched = some s' → firings s' = firings s ++ fired sched := by
  induction sched with
  | nil =>
    intro s s' h
    simp only [run, Option.some.injEq] at h
    subst h
    simp [fired]
  | cons a rest ih =>
    intro s s' h
    simp only [run] at h
    cases hs : step env s a with
    | none => simp [hs] at h
    | some s1 =>
      simp only [hs] at h
      rw [ih s1 s' h]
      cases a with
      | fire id p =>
        obtain ⟨_, rfl⟩ := (step_fire_iff env s s1 id p).mp hs
        simp [firings, fire, fired]
      | take k w =>
        rw [(step_keeps env s s1 (Action.take k w) rfl hs).1]
        simp [fired]
      | probe w now =>
        rw [(step_keeps env s s1 (Action.probe w now) rfl hs).1]
        simp [fired]
      | deliver w =>
        rw [(step_keeps env s s1 (Action.deliver w) rfl hs).1]
        simp [fired]

theorem service_answers_taskAB :
    ∀ tgt ∈ taskAB.Targets, ∀ t ∈ taskAB.Tests, ∃ r, probe service t.Path tgt = .ok r := by
  intro tgt htgt t ht
  have ht' : t = ping := by simpa [taskAB] using ht
  have htgt' : tgt = "a" ∨ tgt = "b" := by simpa [taskAB] using htgt
  subst ht'
  rcases htgt' with rfl | rfl
  · exact ⟨(true, "ok"), rfl⟩
  · exact ⟨(false, "timeout"), rfl⟩

theorem allProbes_bothServed : AllProbesSucceed service (after service main bothServed) := by
  apply allProbes_of_tasks
  intro x hx
  have hx' : x = (1, taskAB) ∨ x = (2, taskAB) := by
    have hf : firings (after service main bothServed) = [(1, taskAB), (2, taskAB)] := rfl
    rw [hf] at hx
    simpa using hx
  rcases hx' with rfl | rfl <;> exact service_answers_taskAB

/-- Claim C3, amended: in every state the program reaches, a sink is closed
only by its own aggregator and only once that aggregator has received the
expected count of results, which is then at least one; the aggregator of every
job is the loop run on a sink nobody else closes, so the sink is never closed
after fewer results than expected and the close of the aggregator never
faults.  Were the sink closed by someone else after `k < n` results, the loop
would stop without hanging, write out a report of those `k` results, and then
panic on its own close of the sink. -/
theorem sink_closed_on_full_count_only (env : Env) (n : Nat) (sched : List Action)
    (s : System) (hrun : run env (start n) sched = some s) :
    (∀ (k : Nat) (b : Job), s.jobs[k]? = some b →
      (b.finished = true → 1 ≤ expected b.task ∧ b.results.length = expected b.task) ∧
      aggregator (expected b.task) false 0 [] b.results =
        (if b.finished then AggOutcome.reported b.results
         else AggOutcome.blocked b.results)) ∧
    (∀ (m : Nat) (arrivals : List Result), arrivals.length < m →
      aggregator m true 0 [] arrivals = AggOutcome.panicked arrivals ∧
      (aggregator m true 0 [] arrivals).report = some arrivals) := by
  have hinv : Inv env s := run_inv env sched (start n) s (inv_start env n) hrun
  constructor
  · intro k b hb
    have hJ := hinv.2.2 k b hb
    have hcount := jobInv_count env s.workers k b hJ
    have hfin := hJ.2.2.1
    constructor
    · intro hf
      have := hfin.mp hf
      omega
    · rw [aggregator_start]
      cases hf : b.finished with
      | true =>
        have := hfin.mp hf
        have hmax : max (expected b.task) 1 = b.results.length := by omega
        rw [if_pos (by omega), hmax, List.take_length]
        rfl
      | false =>
        have hnot : ¬ (1 ≤ b.results.length ∧ expected b.task ≤ b.results.length) := by
          rw [← hfin, hf]
          simp
        rw [if_neg (by omega)]
        rfl
  · intro m arrivals hlt
    rw [aggregator_early_close m arrivals hlt]
    exact ⟨rfl, rfl⟩

/-- Claim C3, amended, on the run `contended` of two jobs on the five workers
of `main`: the job that has its two results has closed its sink, the job that
has one of two has not; and the loop given a sink closed after one result of
two panics with that one result written out. -/
theorem sink_closed_on_full_count_only_witness :
    run service (start 5) contended = some (after service (start 5) contended) ∧
    ((after service (start 5) contended).jobs.map fun b =>
      (b.finished, b.results.length, expected b.task)) = [(false, 1, 2), (true, 2, 2)] ∧
    ((after service (start 5) contended).jobs.map fun b =>
      decide (aggregator (expected b.task) false 0 [] b.results =
        (if b.finished then AggOutcome.reported b.results
         else AggOutcome.blocked b.results))) = [true, true] ∧
    [(⟨1, "ping", "a", 0, true, "ok"⟩ : Result)].length < 2 ∧
    aggregator 2 true 0 [] [⟨1, "ping", "a", 0, true, "ok"⟩] =
      AggOutcome.panicked [⟨1, "ping", "a", 0, true, "ok"⟩] :=
  ⟨rfl, rfl, rfl, by decide,
    ((sink_closed_on_full_count_only service 5 contended
      (after service (start 5) contended) rfl).2 2
      [⟨1, "ping", "a", 0, true, "ok"⟩] (by decide)).1⟩

/-- Claim C5, amended: with any number of workers, firings and any
interleaving, the items a job has handed to workers correspond one to one,
timestamps aside, to the results its sink has received, the results parked in
a send to it and the items workers still hold unprobed, each result carrying
the id, name and target of its item and the decoded outcome and note of its
probe: no item gets two results and none goes to another sink.  While the
process is up, the worker holding an item whose probe succeeds gets exactly
that result ready for the item's sink, the worker holding an item whose probe
fails brings the process down, and every parked send goes through to an open
sink.  When every probe asked for succeeds the process stays up, and once
nothing can move every job has all its items handed out and holds exactly one
result per item, none dropped. -/
theorem one_result_per_item (env : Env) (n : Nat) (sched : List Action) (s : System)
    (hrun : run env (start n) sched = some s) :
    (∀ (k : Nat) (b : Job), s.jobs[k]? = some b →
      ∃ m : Nat, m ≤ (dispatch b.id k b.task).length ∧
        b.queue = (dispatch b.id k b.task).drop m ∧
        List.Perm (((dispatch b.id k b.task).take m).map (outcome env))
          ((b.results ++ sendingTo k s.workers).map (fun r => some (untimed r)) ++
            (probingFor k s.workers).map (outcome env))) ∧
    (s.crashed = false →
      (∀ (w now : Nat) (i : TestCase), s.workers[w]? = some (Worker.probing i) →
        (∀ d, probe env i.Path i.Target = .ok d →
          step env s (Action.probe w now) =
            some { s with
              workers := s.workers.set w (Worker.sending
                { TaskID := i.TaskID, Name := i.Name, Target := i.Target,
                  Result := d.1, Note := d.2, RunTime := now } i.Callback) }) ∧
        (∀ err, probe env i.Path i.Target = .error err →
          step env s (Action.probe w now) = some { s with crashed := true })) ∧
      (∀ (w : Nat) (tr : Result) (c : Chan), s.workers[w]? = some (Worker.sending tr c) →
        ∃ b : Job, s.jobs[c]? = some b ∧ b.finished = false ∧
          step env s (Action.deliver w) =
            some { s with jobs := s.jobs.set c (receive b tr),
                          workers := s.workers.set w Worker.idle })) ∧
    (AllProbesSucceed env s →
      s.crashed = false ∧
      (1 ≤ n → Quiescent env s → ∀ (k : Nat) (b : Job), s.jobs[k]? = some b →
        b.queue = [] ∧ b.results.length = expected b.task ∧
        List.Perm (b.results.map fun r => some (untimed r)) (pairResults env b.id b.task) ∧
        none ∉ pairResults env b.id b.task)) := by
  have hinv : Inv env s := run_inv env sched (start n) s (inv_start env n) hrun
  refine ⟨?_, ?_, ?_⟩
  · intro k b hb
    obtain ⟨_, _, _, m, hm, hq, hE⟩ := hinv.2.2 k b hb
    refine ⟨m, hm, hq, ?_⟩
    rw [← Multiset.coe_eq_coe]
    simp only [Multiset.map_coe, Multiset.coe_add, ← Multiset.coe_add] at hE ⊢
    simpa [List.map_append] using hE
  · intro hc
    constructor
    · intro w now i hw
      constructor
      · intro d hd
        exact (step_probe_iff env s _ w now).mpr
          ⟨hc, i, hw, Or.inr ⟨_, retrieveOne_ok env now i d hd, rfl⟩⟩
      · intro err herr
        exact (step_probe_iff env s _ w now).mpr
          ⟨hc, i, hw, Or.inl ⟨err, retrieveOne_error env now i err herr, rfl⟩⟩
    · intro w tr c hw
      have hlt := hinv.2.1 w tr c hw
      have hb : s.jobs[c]? = some s.jobs[c] := List.getElem?_eq_getElem hlt
      have hf := send_finds_open_channel env s hinv w tr c _ hw hb
      exact ⟨_, hb, hf, (step_deliver_iff env s _ w).mpr
        ⟨hc, tr, c, _, hw, hb, Or.inr ⟨hf, rfl⟩⟩⟩
  · intro hok
    have hc : s.crashed = false :=
      run_no_crash_fired env sched (start n) s (inv_start env n) rfl hrun hok
    refine ⟨hc, ?_⟩
    intro hn hq k b hb
    have hwn : 1 ≤ s.workers.length := by
      rw [run_workers_length env sched (start n) s hrun]
      simpa [start] using hn
    obtain ⟨h1, h2, h3, _⟩ := quiescent_complete env s hinv hc hq hwn k b hb
    rw [map_outcome_dispatch] at h2
    refine ⟨h1, h3, h2, ?_⟩
    intro hnone
    have := h2.symm.subset hnone
    simp at this

/-- Claim C5, amended, on the run `bothServed`: two jobs fired on the five
workers of `main` and served in turns, every probe succeeding; the process is
up, nothing can move, and each job holds one result per item. -/
theorem one_result_per_item_witness :
    run service (start 5) bothServed = some (after service (start 5) bothServed) ∧
    (after service (start 5) bothServed).crashed = false ∧
    ((after service (start 5) bothServed).jobs.map fun b =>
      (b.id, b.results.map fun r => (r.TaskID, r.Target, r.Result, r.Note))) =
      [(1, [(1, "a", true, "ok"), (1, "b", false, "timeout")]),
       (2, [(2, "a", true, "ok"), (2, "b", false, "timeout")])] ∧
    ∀ (k : Nat) (b : Job), (after service (start 5) bothServed).jobs[k]? = some b →
      b.queue = [] ∧ b.results.length = expected b.task ∧
      List.Perm (b.results.map fun r => some (untimed r)) (pairResults service b.id b.task) ∧
      none ∉ pairResults service b.id b.task :=
  ⟨rfl, rfl, rfl,
    ((one_result_per_item service 5 bothServed (after service (start 5) bothServed) rfl).2.2
      allProbes_bothServed).2 (by decide)
      (quiescent_of_idle service _ (by decide) (by decide))⟩

/-- Claim C8, amended: end to end, with a pool of at least one worker, any
number of tasks fired and every probe asked for succeeding, the process does
not crash; its jobs are the tasks fired, in order; the workers and dispatch
loops can be run on until nothing can move, and between firings they cannot
run on for more steps than there is work left, nor crash; once nothing can
move every task with at least one target and one test has its report
completed, one result per pair; and a completed report holds `len(Targets) * len(Tests)` results
which are, up to order and timestamps, exactly one result per pair of target
and test carrying the id, the name, the target and the decoded outcome and
note of the probe of that pair, none missing. -/
theorem end_to_end_report (env : Env) (n : Nat) (sched : List Action) (s : System)
    (hn : 1 ≤ n) (hrun : run env (start n) sched = some s)
    (hok : AllProbesSucceed env s) :
    s.crashed = false ∧ firings s = fired sched ∧
    (∃ (sched' : List Action) (s' : System),
      NoFire sched' ∧ run env s sched' = some s' ∧ Quiescent env s' ∧
      ∀ (k : Nat) (b : Job), s'.jobs[k]? = some b → 1 ≤ expected b.task →
        b.finished = true ∧
        List.Perm (b.results.map fun r => some (untimed r)) (pairResults env b.id b.task)) ∧
    (∀ (sched' : List Action) (s' : System), NoFire sched' → run env s sched' = some s' →
      s'.crashed = false ∧ sched'.length + workLeft s' ≤ workLeft s) ∧
    ∀ (k : Nat) (b : Job), s.jobs[k]? = some b →
      (Quiescent env s → 1 ≤ expected b.task → b.finished = true) ∧
      (b.finished = true →
        b.results.length = b.task.Targets.length * b.task.Tests.length ∧
        List.Perm (b.results.map fun r => some (untimed r)) (pairResults env b.id b.task) ∧
        none ∉ pairResults env b.id b.task) := by
  have hinv : Inv env s := run_inv env sched (start n) s (inv_start env n) hrun
  have hc : s.crashed = false :=
    run_no_crash_fired env sched (start n) s (inv_start env n) rfl hrun hok
  have hwn : 1 ≤ s.workers.length := by
    rw [run_workers_length env sched (start n) s hrun]
    simpa [start] using hn
  refine ⟨hc, ?_, ?_, ?_, ?_⟩
  · have := run_firings env sched (start n) s hrun
    simpa [firings, start] using this
  · obtain ⟨sched', s', hnf, hrun', hq'⟩ := exists_quiescent env (workLeft s) s (le_refl _)
    refine ⟨sched', s', hnf, hrun', hq', ?_⟩
    intro k b hb hp
    have hinv' : Inv env s' := run_inv env sched' s s' hinv hrun'
    have hc' : s'.crashed = false := run_no_crash env sched' s s' hnf hinv hok hc hrun'
    have hwn' : 1 ≤ s'.workers.length := by
      rw [(run_keeps env sched' s s' hnf hrun').2]
      exact hwn
    obtain ⟨_, h2, _, h4⟩ := quiescent_complete env s' hinv' hc' hq' hwn' k b hb
    rw [map_outcome_dispatch] at h2
    exact ⟨h4.mpr hp, h2⟩
  · intro sched' s' hnf hrun'
    exact ⟨run_no_crash env sched' s s' hnf hinv hok hc hrun',
      run_workLeft env sched' s s' hnf hrun'⟩
  · intro k b hb
    constructor
    · intro hq hp
      rw [(quiescent_complete env s hinv hc hq hwn k b hb).2.2.2]
      exact hp
    · intro hf
      obtain ⟨hlen, hperm⟩ := finished_complete env s hinv k b hb hf
      refine ⟨hlen, hperm, ?_⟩
      intro hnone
      have := hperm.symm.subset hnone
      simp at this

/-- Claim C8, amended, on the scenario: targets `a` and `b`, test `ping`, the
probe decoding to `(true, "ok")` for `a` and `(false, "timeout")` for `b`,
fired under the ids `1` and `2` on the five workers of `main` and served in
turns; the process is up and each job has finished with the two results, true
for `a` and false for `b`. -/
theorem end_to_end_report_witness :
    pairResults service 1 taskAB =
      [some ⟨1, "ping", "a", 0, true, "ok"⟩, some ⟨1, "ping", "b", 0, false, "timeout"⟩] ∧
    run service (start 5) bothServed = some (after service (start 5) bothServed) ∧
    fired bothServed = [(1, taskAB), (2, taskAB)] ∧
    ((after service (start 5) bothServed).jobs.map fun b =>
      (b.id, b.finished, b.results.map untimed)) =
      [(1, true, [⟨1, "ping", "a", 0, true, "ok"⟩, ⟨1, "ping", "b", 0, false, "timeout"⟩]),
       (2, true, [⟨2, "ping", "a", 0, true, "ok"⟩, ⟨2, "ping", "b", 0, false, "timeout"⟩])] ∧
    (after service (start 5) bothServed).crashed = false ∧
    firings (after service (start 5) bothServed) = fired bothServed :=
  ⟨rfl, rfl, rfl, rfl,
    (end_to_end_report service 5 bothServed (after service (start 5) bothServed)
      (by decide) rfl allProbes_bothServed).1,
    (end_to_end_report service 5 bothServed (after service (start 5) bothServed)
      (by decide) rfl allProbes_bothServed).2.1⟩

end Integrity
